import Mathlib

/-!
# Validator liveness and slashing keeper

A shallow embedding of `x/slashing/keeper.go`: the double-sign handler
`handleDoubleSign`, the per-block liveness tracker `handleValidatorSignature`,
the address index `addValidatorAddress` and the keeper they hang off, followed
by theorems about them.

Conventions of the embedding:

* Go `int64` values are integers; every `+`, `-`, `++`, `--` of the source is
  followed by `wrap64`, the two's-complement wrap, and `%` is the truncated
  remainder `rem64` (the sign of the result follows the dividend, a zero
  divisor is a run-time panic).
* `time.Time` is the number of nanoseconds since the Unix epoch and
  `time.Duration` a number of nanoseconds.
* The key-value store behind `ctx` is threaded explicitly as `State`; the
  validator set is an external collaborator, represented by the chronological
  list of `Slash`/`Revoke` calls it has received and by a lookup whose answer
  may depend on the block context and on those calls. Its calls do not write
  to the keeper's own stores.
* The store accessors, the parameter getters and the signing-info record live
  in files that are not at hand; they are modelled from the specification, as
  plain maps and plain values.
* Logging has no effect on any state and is left out.
* A Go panic is an `Outcome.panicked` carrying the state reached so far.
-/

namespace Slashing

/-! ## Machine integers and time -/

/-- Smallest `int64`. -/
def minInt64 : Int := -9223372036854775808

/-- Largest `int64`. -/
def maxInt64 : Int := 9223372036854775807

/-- Two's-complement wrap of an integer into the `int64` range. -/
def wrap64 (x : Int) : Int :=
  (x + 9223372036854775808) % 18446744073709551616 - 9223372036854775808

/-- Go's `%` on `int64` for a non-zero divisor: truncated remainder. -/
def rem64 (a b : Int) : Int := Int.tmod a b

/-- Go's `time.Unix(sec, nsec)`, as nanoseconds since the epoch. -/
def timeUnix (sec nsec : Int) : Int := sec * 1000000000 + nsec

/-- Go's `t.Sub(u)`: the difference as a `Duration`, saturating at the
largest and smallest `int64`. -/
def timeSub (t u : Int) : Int :=
  if t - u > maxInt64 then maxInt64
  else if t - u < minInt64 then minInt64
  else t - u

/-- Go's `t.Add(d)`. -/
def timeAdd (t d : Int) : Int := t + d

/-! ## Data model -/

/-- A `crypto.PubKey`: its raw bytes and the result of its `Address()` method. -/
structure PubKey where
  Bytes : List Nat
  Address : List Nat
deriving DecidableEq

/-- Modelled from the spec: the `ValidatorSigningInfo` record (its declaration is
in a file that is not part of the sources at hand). -/
structure ValidatorSigningInfo where
  StartHeight : Int
  IndexOffset : Int
  JailedUntil : Int
  SignedBlocksCounter : Int
deriving DecidableEq

/-- Modelled from the spec: the constructor `NewValidatorSigningInfo`, which
fills the four fields in the order of its arguments. -/
def NewValidatorSigningInfo (startHeight indexOffset jailedUntil signedBlocksCounter : Int) :
    ValidatorSigningInfo :=
  { StartHeight := startHeight, IndexOffset := indexOffset,
    JailedUntil := jailedUntil, SignedBlocksCounter := signedBlocksCounter }

/-- What the keeper reads of an `sdk.Validator`: the result of `GetRevoked()`. -/
structure Validator where
  Revoked : Bool
deriving DecidableEq

/-- A state-changing call received by the validator set. -/
inductive VSCall where
  | Slash (pubkey : PubKey) (height : Int) (power : Int) (fraction : Rat)
  | Revoke (pubkey : PubKey)
deriving DecidableEq

/-- The block context: `ctx.BlockHeight()` and `ctx.BlockHeader().Time`. -/
structure Ctx where
  BlockHeight : Int
  BlockTime : Int
deriving DecidableEq

/-- The state behind `ctx`: the signing-info store, the signing bit-array store
(an absent entry is `none`) and the calls the validator set has received. -/
structure State where
  signingInfo : List Nat → Option ValidatorSigningInfo
  bitArray : List Nat → Int → Option Bool
  calls : List VSCall

/-- Modelled from the spec: the tunables served by the parameter provider. -/
structure Params where
  SignedBlocksWindow : Int
  MinSignedPerWindow : Int
  MaxEvidenceAge : Int
  SlashFractionDoubleSign : Rat
  SlashFractionDowntime : Rat
  DoubleSignUnbondDuration : Int
  DowntimeUnbondDuration : Int

/-- The `sdk.ValidatorSet` the keeper talks to: the lookup by public key. Its
answer is a function of the block context and of the calls received so far. -/
structure ValidatorSet where
  ValidatorByPubKey : Ctx → List VSCall → PubKey → Option Validator

/-- The keeper. `addressToPubkey` is a Go map: `none` is the nil map. -/
structure Keeper where
  validatorSet : ValidatorSet
  params : Params
  addressToPubkey : Option (List Nat → Option PubKey)

/-- The constructor `NewKeeper`: it sets the store key, the codec, the validator
set, the parameters and the codespace; the map `addressToPubkey` is not among
the fields it sets, so it is left nil. -/
def NewKeeper (vs : ValidatorSet) (params : Params) : Keeper :=
  { validatorSet := vs, params := params, addressToPubkey := none }

/-- Why a call panicked. -/
inductive Panic where
  | integerDivideByZero
  | signingInfoNotFound (address : List Nat)
deriving DecidableEq

/-- How a handler ends: it returns, or it panics; both carry the state reached. -/
inductive Outcome where
  | returned (s : State)
  | panicked (p : Panic) (s : State)

/-- The state an outcome carries. -/
def Outcome.state : Outcome → State
  | .returned s => s
  | .panicked _ s => s

/-- Whether the outcome is a panic. -/
def Outcome.isPanic : Outcome → Bool
  | .returned _ => false
  | .panicked _ _ => true

/-! ## Stores and the validator set -/

/-- Modelled from the spec: `get(address) -> (SigningInfo, found)`. -/
def getValidatorSigningInfo (s : State) (address : List Nat) : Option ValidatorSigningInfo :=
  s.signingInfo address

/-- Modelled from the spec: `set(address, SigningInfo)`. -/
def setValidatorSigningInfo (s : State) (address : List Nat) (info : ValidatorSigningInfo) :
    State :=
  { s with signingInfo := Function.update s.signingInfo address (some info) }

/-- Modelled from the spec: `getBit(address, slot) -> bool`, `false` if absent. -/
def getValidatorSigningBitArray (s : State) (address : List Nat) (index : Int) : Bool :=
  (s.bitArray address index).getD false

/-- Modelled from the spec: `setBit(address, slot, bool)`. -/
def setValidatorSigningBitArray (s : State) (address : List Nat) (index : Int)
    (signed : Bool) : State :=
  let row := Function.update (s.bitArray address) index (some signed)
  { s with bitArray := Function.update s.bitArray address row }

/-- The call `k.validatorSet.Slash(ctx, pubkey, height, power, fraction)`. -/
def Slash (s : State) (pubkey : PubKey) (height power : Int) (fraction : Rat) : State :=
  { s with calls := s.calls ++ [VSCall.Slash pubkey height power fraction] }

/-- The call `k.validatorSet.Revoke(ctx, pubkey)`. -/
def Revoke (s : State) (pubkey : PubKey) : State :=
  { s with calls := s.calls ++ [VSCall.Revoke pubkey] }

/-! ## The handlers -/

/-- The handler `handleDoubleSign` of a validator signing two blocks at the same
height: evidence older than `MaxEvidenceAge` is ignored; otherwise the validator
is slashed and revoked, and then jailed through its signing-info record, whose
absence is a panic. -/
def handleDoubleSign (k : Keeper) (ctx : Ctx) (s : State) (pubkey : PubKey)
    (infractionHeight timestamp power : Int) : Outcome :=
  let time := ctx.BlockTime
  let age := timeSub time timestamp
  let address := pubkey.Address
  let maxEvidenceAge := k.params.MaxEvidenceAge
  if age > maxEvidenceAge then
    Outcome.returned s
  else
    let s1 := Slash s pubkey infractionHeight power k.params.SlashFractionDoubleSign
    let s2 := Revoke s1 pubkey
    match getValidatorSigningInfo s2 address with
    | none => Outcome.panicked (Panic.signingInfoNotFound address) s2
    | some signInfo =>
      let signInfo1 :=
        { signInfo with JailedUntil := timeAdd time k.params.DoubleSignUnbondDuration }
      Outcome.returned (setValidatorSigningInfo s2 address signInfo1)

/-- Lines 80 to 84 of `handleValidatorSignature`: the stored record, or a new
one with the current height as start height. The new record has `JailedUntil`
at `time.Unix(0, 0)`, the Unix epoch, which is not Go's zero `time.Time`,
although the comment on lines 78 and 79 speaks of the 0-value default. -/
def loadSigningInfo (ctx : Ctx) (s : State) (address : List Nat) : ValidatorSigningInfo :=
  match getValidatorSigningInfo s address with
  | some signInfo => signInfo
  | none => NewValidatorSigningInfo ctx.BlockHeight 0 (timeUnix 0 0) 0

/-- Lines 86 to 102 of `handleValidatorSignature`: bump the offset, compare the
slot with the new observation, and adjust bit and counter. -/
def updateWindow (s : State) (address : List Nat) (index : Int) (signed : Bool)
    (signInfo : ValidatorSigningInfo) : State × ValidatorSigningInfo :=
  let signInfo1 := { signInfo with IndexOffset := wrap64 (signInfo.IndexOffset + 1) }
  let previous := getValidatorSigningBitArray s address index
  if previous = signed then
    (s, signInfo1)
  else if previous = true ∧ signed = false then
    (setValidatorSigningBitArray s address index false,
      { signInfo1 with SignedBlocksCounter := wrap64 (signInfo1.SignedBlocksCounter - 1) })
  else if previous = false ∧ signed = true then
    (setValidatorSigningBitArray s address index true,
      { signInfo1 with SignedBlocksCounter := wrap64 (signInfo1.SignedBlocksCounter + 1) })
  else
    (s, signInfo1)

/-- Lines 107 to 122 of `handleValidatorSignature`: the downtime check and,
when it fires on a validator that is found and not revoked, the punishment. -/
def checkDowntime (k : Keeper) (ctx : Ctx) (s : State) (pubkey : PubKey) (power : Int)
    (signInfo : ValidatorSigningInfo) : State × ValidatorSigningInfo :=
  let height := ctx.BlockHeight
  let minHeight := wrap64 (signInfo.StartHeight + k.params.SignedBlocksWindow)
  if height > minHeight ∧ signInfo.SignedBlocksCounter < k.params.MinSignedPerWindow then
    match k.validatorSet.ValidatorByPubKey ctx s.calls pubkey with
    | some validator =>
      if validator.Revoked = false then
        let s1 := Slash s pubkey height power k.params.SlashFractionDowntime
        let s2 := Revoke s1 pubkey
        (s2, { signInfo with
                JailedUntil := timeAdd ctx.BlockTime k.params.DowntimeUnbondDuration })
      else
        (s, signInfo)
    | none => (s, signInfo)
  else
    (s, signInfo)

/-- The handler `handleValidatorSignature` of one validator's signature, or
absence, in one block. Line 85 divides by the window size: a zero window is a
panic, before anything is written. -/
def handleValidatorSignature (k : Keeper) (ctx : Ctx) (s : State) (pubkey : PubKey)
    (power : Int) (signed : Bool) : Outcome :=
  let address := pubkey.Address
  let signInfo := loadSigningInfo ctx s address
  if k.params.SignedBlocksWindow = 0 then
    Outcome.panicked Panic.integerDivideByZero s
  else
    let index := rem64 signInfo.IndexOffset k.params.SignedBlocksWindow
    let r1 := updateWindow s address index signed signInfo
    let r2 := checkDowntime k ctx r1.1 pubkey power r1.2
    Outcome.returned (setValidatorSigningInfo r2.1 address r2.2)

/-- One report to `handleValidatorSignature`: its block, the power and the flag. -/
structure Report where
  ctx : Ctx
  power : Int
  signed : Bool

/-- A sequence of `handleValidatorSignature` calls for one public key, each on
the state the previous one left; a panic ends the sequence. -/
def handleValidatorSignatures (k : Keeper) (pubkey : PubKey) : State → List Report → Outcome
  | s, [] => Outcome.returned s
  | s, r :: rs =>
    match handleValidatorSignature k r.ctx s pubkey r.power r.signed with
    | Outcome.returned s1 => handleValidatorSignatures k pubkey s1 rs
    | Outcome.panicked p s1 => Outcome.panicked p s1

/-- The number of slots in `[0, W)` whose signing bit reads `true`. -/
def signedBitsInWindow (s : State) (address : List Nat) (W : Int) : Nat :=
  (List.range W.toNat).countP (fun (i : Nat) => getValidatorSigningBitArray s address (i : Int))

/-- The `IndexOffset` the next `handleValidatorSignature` call starts from: the
stored one, or 0 when there is no record. -/
def storedIndexOffset (s : State) (address : List Nat) : Int :=
  match s.signingInfo address with
  | some info => info.IndexOffset
  | none => 0

/-- The `SignedBlocksCounter` the next `handleValidatorSignature` call starts
from: the stored one, or 0 when there is no record. -/
def storedCounter (s : State) (address : List Nat) : Int :=
  match s.signingInfo address with
  | some info => info.SignedBlocksCounter
  | none => 0

/-- The state of one validator's window after the reports `flags` (oldest
first) with window size `W`: the offset is the number of reports, the counter
is both the number of set bits in `[0, W)` and the number of `true` flags among
the last `W` reports, each of the last `W` reports sits in its slot, and every
other slot reads `false`. -/
structure WindowInv (s : State) (a : List Nat) (W : Nat) (flags : List Bool) : Prop where
  offset : storedIndexOffset s a = wrap64 flags.length
  window : storedCounter s a = (signedBitsInWindow s a W : Int)
  recent : storedCounter s a = (((flags.drop (flags.length - W)).count true : Nat) : Int)
  slot : ∀ j : Nat, j < flags.length → flags.length ≤ j + W →
    getValidatorSigningBitArray s a ((j % W : Nat) : Int) = flags.getD j false
  unset : ∀ i : Int, i < 0 ∨ ((min flags.length W : Nat) : Int) ≤ i →
    getValidatorSigningBitArray s a i = false

/-! ## Sample data -/

/-- A state with empty stores and no call received. -/
def emptyState : State :=
  { signingInfo := fun _ => none, bitArray := fun _ _ => none, calls := [] }

/-- A validator set in which every public key is an active validator until it
has received a `Revoke`. -/
def activeUntilRevoked : ValidatorSet :=
  { ValidatorByPubKey := fun _ calls pk =>
      some { Revoked := decide (VSCall.Revoke pk ∈ calls) } }

/-- Sample parameters: window 3, threshold 2, 48h of evidence age. -/
def sampleParams : Params :=
  { SignedBlocksWindow := 3, MinSignedPerWindow := 2,
    MaxEvidenceAge := 172800000000000,
    SlashFractionDoubleSign := 0, SlashFractionDowntime := 0,
    DoubleSignUnbondDuration := 5, DowntimeUnbondDuration := 7 }

/-- A sample keeper. -/
def sampleKeeper : Keeper := NewKeeper activeUntilRevoked sampleParams

/-- A sample public key. -/
def samplePubKey : PubKey := { Bytes := [1], Address := [7] }

/-- A validator set that knows no validator. -/
def noValidators : ValidatorSet :=
  { ValidatorByPubKey := fun _ _ _ => none }

/-- Parameters with window 100 and threshold 50. -/
def thresholdParams : Params :=
  { SignedBlocksWindow := 100, MinSignedPerWindow := 50,
    MaxEvidenceAge := 172800000000000,
    SlashFractionDoubleSign := 1 / 20, SlashFractionDowntime := 1 / 100,
    DoubleSignUnbondDuration := 5, DowntimeUnbondDuration := 7 }

/-- A keeper with window 100 and threshold 50. -/
def thresholdKeeper : Keeper := NewKeeper activeUntilRevoked thresholdParams

/-- A state in which the sample validator, tracked since height 0, has seen 200
blocks and has its slots `0 .. c - 1` set, with counter `c`. -/
def thresholdState (c : Int) : State :=
  { signingInfo := fun a => if a = [7] then some ⟨0, 200, 0, c⟩ else none,
    bitArray := fun a i => if a = [7] ∧ 0 ≤ i ∧ i < c then some true else none,
    calls := [] }

/-- A state in which the sample validator is tracked since height 10, with an
empty window. -/
def trackedState : State :=
  { signingInfo := fun a => if a = [7] then some ⟨10, 0, 0, 0⟩ else none,
    bitArray := fun _ _ => none,
    calls := [] }

/-- Three absences at heights 11 to 13. -/
def graceReports : List Report :=
  [⟨⟨11, 100⟩, 1, false⟩, ⟨⟨12, 200⟩, 1, false⟩, ⟨⟨13, 300⟩, 1, false⟩]

/-- A block of height 500 whose header time is 48h after time 1000. -/
def lateCtx : Ctx := { BlockHeight := 500, BlockTime := 172800000001000 }

/-- A report of power 1 in a block of height 0 at time 0. -/
def sampleReport (signed : Bool) : Report :=
  { ctx := { BlockHeight := 0, BlockTime := 0 }, power := 1, signed := signed }

/-- Five reports at heights 10 to 14. -/
def sampleReports : List Report :=
  [⟨⟨10, 0⟩, 1, true⟩, ⟨⟨11, 0⟩, 1, false⟩, ⟨⟨12, 0⟩, 1, true⟩, ⟨⟨13, 0⟩, 1, true⟩,
    ⟨⟨14, 0⟩, 1, false⟩]

/-- Five more reports at heights 10 to 14. -/
def sampleReportsB : List Report :=
  [⟨⟨10, 0⟩, 1, false⟩, ⟨⟨11, 0⟩, 1, true⟩, ⟨⟨12, 0⟩, 1, true⟩, ⟨⟨13, 0⟩, 1, false⟩,
    ⟨⟨14, 0⟩, 1, true⟩]

/-! ## The end-to-end scenario -/

/-- The flags of the scenario at heights 101 to 110: signed at 103, 105 and 107. -/
def scenarioFlag (height : Int) : Bool :=
  decide (height = 103 ∨ height = 105 ∨ height = 107)

/-- The report of the scenario at a height from 101 to 110. -/
def scenarioReport (time power : Int → Int) (height : Int) : Report :=
  { ctx := { BlockHeight := height, BlockTime := time height }, power := power height,
    signed := scenarioFlag height }

/-- The reports of the scenario up to height 110: a first report at height 100
with the flag `first`, then the reports at heights 101 to 110. -/
def scenarioReports (first : Bool) (time power : Int → Int) : List Report :=
  { ctx := { BlockHeight := 100, BlockTime := time 100 }, power := power 100, signed := first } ::
    [101, 102, 103, 104, 105, 106, 107, 108, 109, 110].map (scenarioReport time power)

/-- The block of the scenario at height 111. -/
def scenarioCtx (time : Int → Int) : Ctx := { BlockHeight := 111, BlockTime := time 111 }

/-- Parameters with window 10 and threshold 5. -/
def scenarioParams : Params :=
  { SignedBlocksWindow := 10, MinSignedPerWindow := 5,
    MaxEvidenceAge := 172800000000000,
    SlashFractionDoubleSign := 1 / 20, SlashFractionDowntime := 1 / 100,
    DoubleSignUnbondDuration := 5, DowntimeUnbondDuration := 7 }

/-- A keeper with window 10 and threshold 5. -/
def scenarioKeeper : Keeper := NewKeeper activeUntilRevoked scenarioParams

/-! ## Sequences of calls to both handlers -/

/-- One call to a handler of the keeper. -/
inductive Call where
  | signature (ctx : Ctx) (pubkey : PubKey) (power : Int) (signed : Bool)
  | doubleSign (ctx : Ctx) (pubkey : PubKey) (infractionHeight timestamp power : Int)

/-- The handler a call goes to. -/
def handleCall (k : Keeper) (s : State) : Call → Outcome
  | Call.signature ctx pubkey power signed => handleValidatorSignature k ctx s pubkey power signed
  | Call.doubleSign ctx pubkey infractionHeight timestamp power =>
    handleDoubleSign k ctx s pubkey infractionHeight timestamp power

/-- A sequence of calls to the two handlers, each on the state the previous one
left; a panic ends the sequence. -/
def handleCalls (k : Keeper) : State → List Call → Outcome
  | s, [] => Outcome.returned s
  | s, c :: cs =>
    match handleCall k s c with
    | Outcome.returned s1 => handleCalls k s1 cs
    | Outcome.panicked p s1 => Outcome.panicked p s1

/-- No bit is stored for an address that has no signing-info record. -/
def NoOrphanBits (s : State) : Prop :=
  ∀ a i, s.signingInfo a = none → s.bitArray a i = none

/-- A second sample public key, with another address. -/
def otherPubKey : PubKey := { Bytes := [2], Address := [8] }

/-- A sample of calls: reports for both sample keys and a double sign. -/
def sampleCalls : List Call :=
  [Call.signature ⟨6, 10⟩ otherPubKey 1 true, Call.signature ⟨7, 20⟩ samplePubKey 1 false,
    Call.doubleSign ⟨8, 30⟩ samplePubKey 6 25 1, Call.signature ⟨8, 30⟩ samplePubKey 1 true]

/-- The validator a call on the validator set is made for. -/
def VSCall.pubkey : VSCall → PubKey
  | VSCall.Slash pubkey _ _ _ => pubkey
  | VSCall.Revoke pubkey => pubkey

/-! ## The address index -/

/-- How `addValidatorAddress` ends: it returns, with the keeper's map as it is
then (a Go map is shared with the caller), or it panics on the assignment to an
entry of a nil map. -/
inductive IndexOutcome where
  | returned (addressToPubkey : Option (List Nat → Option PubKey))
  | panicked

/-- The array `addr` of `addValidatorAddress`: `size` zero bytes, over which
`copy` writes as many bytes of the slice as fit. -/
def copyAddress (size : Nat) (addrSlice : List Nat) : List Nat :=
  (addrSlice ++ List.replicate size 0).take size

/-- The method `addValidatorAddress`; `size` stands for tendermint's constant
`tmhash.Size`. A slice of another length is ignored; otherwise the key is
stored under the copied address, which panics when the map is nil. -/
def addValidatorAddress (size : Nat) (k : Keeper) (addrSlice : List Nat) (key : PubKey) :
    IndexOutcome :=
  if addrSlice.length ≠ size then
    IndexOutcome.returned k.addressToPubkey
  else
    match k.addressToPubkey with
    | none => IndexOutcome.panicked
    | some m =>
      IndexOutcome.returned (some (Function.update m (copyAddress size addrSlice) (some key)))

/-- Reports of power 1 at time 0, all with the same flag, one at each of `n`
consecutive heights starting from `H`. -/
def consecutiveReports (signed : Bool) : Int → Nat → List Report
  | _, 0 => []
  | H, n + 1 =>
    { ctx := { BlockHeight := H, BlockTime := 0 }, power := 1, signed := signed } ::
      consecutiveReports signed (H + 1) n

/-- A state in which the sample validator is tracked since height `H`, after one
absent report: offset 1, no bit set, counter 0. -/
def trackedSince (H : Int) : State :=
  { signingInfo := fun a => if a = [7] then some ⟨H, 1, 0, 0⟩ else none,
    bitArray := fun _ _ => none,
    calls := [] }

/-- Two absences, at the two largest `int64` heights. -/
def lastHeightsReports : List Report :=
  [⟨⟨9223372036854775806, 100⟩, 1, false⟩, ⟨⟨9223372036854775807, 200⟩, 1, false⟩]

/-! ## Machine arithmetic -/

theorem wrap64_eq_self {x : Int} (h1 : minInt64 ≤ x) (h2 : x ≤ maxInt64) : wrap64 x = x := by
  unfold wrap64
  unfold minInt64 at h1
  unfold maxInt64 at h2
  omega

theorem wrap64_natCast {n : Nat} (h : (n : Int) ≤ maxInt64) : wrap64 (n : Int) = n := by
  apply wrap64_eq_self _ h
  unfold minInt64
  omega

theorem rem64_natCast (n W : Nat) : rem64 (n : Int) (W : Int) = ((n % W : Nat) : Int) := by
  unfold rem64
  rw [Int.tmod_eq_emod (Int.ofNat_nonneg n) (Int.ofNat_nonneg W)]
  exact (Int.ofNat_emod n W).symm

/-! ## Reading the stores after a write -/

theorem getBit_setBit (s : State) (a a1 : List Nat) (i i1 : Int) (b : Bool) :
    getValidatorSigningBitArray (setValidatorSigningBitArray s a i b) a1 i1 =
      if a1 = a ∧ i1 = i then b else getValidatorSigningBitArray s a1 i1 := by
  unfold getValidatorSigningBitArray setValidatorSigningBitArray
  by_cases ha : a1 = a
  · subst ha
    by_cases hi : i1 = i
    · subst hi
      simp
    · simp [Function.update_noteq hi, hi]
  · simp [Function.update_noteq ha, ha]

theorem getBit_setInfo (s : State) (a a1 : List Nat) (info : ValidatorSigningInfo) (i : Int) :
    getValidatorSigningBitArray (setValidatorSigningInfo s a info) a1 i =
      getValidatorSigningBitArray s a1 i := rfl

theorem loadSigningInfo_IndexOffset (ctx : Ctx) (s : State) (a : List Nat) :
    (loadSigningInfo ctx s a).IndexOffset = storedIndexOffset s a := by
  unfold loadSigningInfo storedIndexOffset getValidatorSigningInfo
  cases s.signingInfo a <;> rfl

theorem loadSigningInfo_counter (ctx : Ctx) (s : State) (a : List Nat) :
    (loadSigningInfo ctx s a).SignedBlocksCounter = storedCounter s a := by
  unfold loadSigningInfo storedCounter getValidatorSigningInfo
  cases s.signingInfo a <;> rfl

/-! ## The two halves of `handleValidatorSignature` -/

theorem updateWindow_calls (s : State) (a : List Nat) (i : Int) (b : Bool)
    (info : ValidatorSigningInfo) : (updateWindow s a i b info).1.calls = s.calls := by
  unfold updateWindow
  simp only
  split_ifs <;> rfl

theorem updateWindow_signingInfo (s : State) (a : List Nat) (i : Int) (b : Bool)
    (info : ValidatorSigningInfo) :
    (updateWindow s a i b info).1.signingInfo = s.signingInfo := by
  unfold updateWindow
  simp only
  split_ifs <;> rfl

theorem updateWindow_StartHeight (s : State) (a : List Nat) (i : Int) (b : Bool)
    (info : ValidatorSigningInfo) :
    (updateWindow s a i b info).2.StartHeight = info.StartHeight := by
  unfold updateWindow
  simp only
  split_ifs <;> rfl

theorem updateWindow_JailedUntil (s : State) (a : List Nat) (i : Int) (b : Bool)
    (info : ValidatorSigningInfo) :
    (updateWindow s a i b info).2.JailedUntil = info.JailedUntil := by
  unfold updateWindow
  simp only
  split_ifs <;> rfl

theorem updateWindow_IndexOffset (s : State) (a : List Nat) (i : Int) (b : Bool)
    (info : ValidatorSigningInfo) :
    (updateWindow s a i b info).2.IndexOffset = wrap64 (info.IndexOffset + 1) := by
  unfold updateWindow
  simp only
  split_ifs <;> rfl

theorem updateWindow_counter (s : State) (a : List Nat) (i : Int) (b : Bool)
    (info : ValidatorSigningInfo) :
    (updateWindow s a i b info).2.SignedBlocksCounter =
      if getValidatorSigningBitArray s a i = b then info.SignedBlocksCounter
      else if b = true then wrap64 (info.SignedBlocksCounter + 1)
      else wrap64 (info.SignedBlocksCounter - 1) := by
  unfold updateWindow
  cases b <;> cases getValidatorSigningBitArray s a i <;> simp

theorem updateWindow_getBit (s : State) (a a1 : List Nat) (i i1 : Int) (b : Bool)
    (info : ValidatorSigningInfo) :
    getValidatorSigningBitArray (updateWindow s a i b info).1 a1 i1 =
      if a1 = a ∧ i1 = i then b else getValidatorSigningBitArray s a1 i1 := by
  by_cases h : a1 = a ∧ i1 = i
  · obtain ⟨h1, h2⟩ := h
    subst h1
    subst h2
    unfold updateWindow
    cases b <;> cases hp : getValidatorSigningBitArray s a1 i1 <;> simp [getBit_setBit, hp]
  · unfold updateWindow
    cases b <;> cases hp : getValidatorSigningBitArray s a i <;> simp [getBit_setBit, h]

theorem checkDowntime_bitArray (k : Keeper) (ctx : Ctx) (s : State) (pk : PubKey) (p : Int)
    (info : ValidatorSigningInfo) :
    (checkDowntime k ctx s pk p info).1.bitArray = s.bitArray := by
  unfold checkDowntime
  simp only
  split_ifs
  · split
    · split_ifs <;> rfl
    · rfl
  · rfl

theorem checkDowntime_signingInfo (k : Keeper) (ctx : Ctx) (s : State) (pk : PubKey) (p : Int)
    (info : ValidatorSigningInfo) :
    (checkDowntime k ctx s pk p info).1.signingInfo = s.signingInfo := by
  unfold checkDowntime
  simp only
  split_ifs
  · split
    · split_ifs <;> rfl
    · rfl
  · rfl

theorem checkDowntime_fields (k : Keeper) (ctx : Ctx) (s : State) (pk : PubKey) (p : Int)
    (info : ValidatorSigningInfo) :
    (checkDowntime k ctx s pk p info).2.StartHeight = info.StartHeight ∧
    (checkDowntime k ctx s pk p info).2.IndexOffset = info.IndexOffset ∧
    (checkDowntime k ctx s pk p info).2.SignedBlocksCounter = info.SignedBlocksCounter := by
  unfold checkDowntime
  simp only
  split_ifs
  · split
    · split_ifs <;> exact ⟨rfl, rfl, rfl⟩
    · exact ⟨rfl, rfl, rfl⟩
  · exact ⟨rfl, rfl, rfl⟩

theorem handleValidatorSignature_returned (k : Keeper) (ctx : Ctx) (s : State) (pk : PubKey)
    (p : Int) (b : Bool) (hW : k.params.SignedBlocksWindow ≠ 0) :
    handleValidatorSignature k ctx s pk p b =
      Outcome.returned
        (setValidatorSigningInfo
          (checkDowntime k ctx
            (updateWindow s pk.Address
              (rem64 (loadSigningInfo ctx s pk.Address).IndexOffset k.params.SignedBlocksWindow)
              b (loadSigningInfo ctx s pk.Address)).1 pk p
            (updateWindow s pk.Address
              (rem64 (loadSigningInfo ctx s pk.Address).IndexOffset k.params.SignedBlocksWindow)
              b (loadSigningInfo ctx s pk.Address)).2).1
          pk.Address
          (checkDowntime k ctx
            (updateWindow s pk.Address
              (rem64 (loadSigningInfo ctx s pk.Address).IndexOffset k.params.SignedBlocksWindow)
              b (loadSigningInfo ctx s pk.Address)).1 pk p
            (updateWindow s pk.Address
              (rem64 (loadSigningInfo ctx s pk.Address).IndexOffset k.params.SignedBlocksWindow)
              b (loadSigningInfo ctx s pk.Address)).2).2) := by
  unfold handleValidatorSignature
  simp [hW]

/-- What one `handleValidatorSignature` call does to the window, whatever the
downtime check decides. -/
theorem handleValidatorSignature_window (k : Keeper) (ctx : Ctx) (s : State) (pk : PubKey)
    (p : Int) (b : Bool) (hW : k.params.SignedBlocksWindow ≠ 0) :
    ∃ s1, handleValidatorSignature k ctx s pk p b = Outcome.returned s1 ∧
      (∀ a1 i1, getValidatorSigningBitArray s1 a1 i1 =
        if a1 = pk.Address ∧
            i1 = rem64 (storedIndexOffset s pk.Address) k.params.SignedBlocksWindow
        then b else getValidatorSigningBitArray s a1 i1) ∧
      storedIndexOffset s1 pk.Address = wrap64 (storedIndexOffset s pk.Address + 1) ∧
      storedCounter s1 pk.Address =
        (if getValidatorSigningBitArray s pk.Address
            (rem64 (storedIndexOffset s pk.Address) k.params.SignedBlocksWindow) = b
         then storedCounter s pk.Address
         else if b = true then wrap64 (storedCounter s pk.Address + 1)
         else wrap64 (storedCounter s pk.Address - 1)) := by
  refine ⟨_, handleValidatorSignature_returned k ctx s pk p b hW, ?_, ?_, ?_⟩
  · intro a1 i1
    rw [getBit_setInfo]
    unfold getValidatorSigningBitArray
    rw [checkDowntime_bitArray]
    have h := updateWindow_getBit s pk.Address a1
      (rem64 (loadSigningInfo ctx s pk.Address).IndexOffset k.params.SignedBlocksWindow) i1 b
      (loadSigningInfo ctx s pk.Address)
    rw [loadSigningInfo_IndexOffset] at h
    rw [loadSigningInfo_IndexOffset]
    exact h
  · simp only [storedIndexOffset, setValidatorSigningInfo, Function.update_same]
    rw [(checkDowntime_fields _ _ _ _ _ _).2.1, updateWindow_IndexOffset,
      loadSigningInfo_IndexOffset]
    rfl
  · simp only [storedCounter, setValidatorSigningInfo, Function.update_same]
    rw [(checkDowntime_fields _ _ _ _ _ _).2.2, updateWindow_counter,
      loadSigningInfo_IndexOffset, loadSigningInfo_counter]
    rfl

/-! ## Counting bits -/

theorem countP_range_congr (f g : Nat → Bool) (W : Nat) (h : ∀ i, i < W → g i = f i) :
    (List.range W).countP g = (List.range W).countP f := by
  apply List.countP_congr
  intro i hi
  rw [h i (List.mem_range.mp hi)]

theorem countP_range_update (f g : Nat → Bool) (b : Bool) (idx W : Nat) (hidx : idx < W)
    (hg : ∀ i, g i = if i = idx then b else f i) :
    (List.range W).countP g + (if f idx = true then 1 else 0) =
      (List.range W).countP f + (if b = true then 1 else 0) := by
  induction W with
  | zero => omega
  | succ W ih =>
    rw [List.range_succ, List.countP_append, List.countP_append]
    by_cases h : idx = W
    · subst h
      have h1 : (List.range idx).countP g = (List.range idx).countP f := by
        apply countP_range_congr
        intro i hi
        rw [hg i, if_neg (by omega)]
      have h2 : g idx = b := by rw [hg idx, if_pos rfl]
      rw [h1]
      simp only [List.countP_cons, List.countP_nil, h2]
      omega
    · have h1 := ih (by omega)
      have h2 : g W = f W := by rw [hg W, if_neg (by omega)]
      simp only [List.countP_cons, List.countP_nil, h2]
      omega

theorem count_recent_snoc (flags : List Bool) (b : Bool) (W : Nat) (hpos : 0 < W) :
    ((flags ++ [b]).drop (flags.length + 1 - W)).count true +
        (if W ≤ flags.length ∧ flags.getD (flags.length - W) false = true then 1 else 0) =
      (flags.drop (flags.length - W)).count true + (if b = true then 1 else 0) := by
  by_cases h : W ≤ flags.length
  · have hlt : flags.length - W < flags.length := by omega
    have h1 : (flags ++ [b]).drop (flags.length + 1 - W) =
        flags.drop (flags.length + 1 - W) ++ [b] :=
      List.drop_append_of_le_length (by omega)
    have h2 : flags.drop (flags.length - W) =
        flags[flags.length - W] :: flags.drop (flags.length - W + 1) :=
      List.drop_eq_getElem_cons hlt
    have h3 : flags.length + 1 - W = flags.length - W + 1 := by omega
    have h4 : flags.getD (flags.length - W) false = flags[flags.length - W] := by
      simp [List.getD_eq_getElem?_getD, List.getElem?_eq_getElem hlt]
    rw [h1, h2, h3, h4, List.count_append, List.count_cons]
    cases b <;> cases flags[flags.length - W] <;> simp [h]
  · have h1 : flags.length + 1 - W = 0 := by omega
    have h2 : flags.length - W = 0 := by omega
    rw [h1, h2, List.drop_zero, List.drop_zero, List.count_append]
    cases b <;> simp [h]

/-! ## The window invariant -/

theorem mod_ne_of_lt_of_lt {j n W : Nat} (h1 : j < n) (h2 : n < j + W) : j % W ≠ n % W := by
  intro h
  have hd : W ∣ n - j := (Nat.modEq_iff_dvd' (Nat.le_of_lt h1)).mp h
  have := Nat.le_of_dvd (by omega) hd
  omega

/-- One `handleValidatorSignature` call keeps the window invariant, as long as
the offset it starts from has not reached the largest `int64`. -/
theorem WindowInv.step (k : Keeper) (ctx : Ctx) (s : State) (pk : PubKey) (p : Int) (b : Bool)
    (W : Nat) (flags : List Bool) (hW : k.params.SignedBlocksWindow = (W : Int))
    (hpos : 0 < W) (hmax : (W : Int) ≤ maxInt64) (hlen : (flags.length : Int) ≤ maxInt64)
    (h : WindowInv s pk.Address W flags) :
    ∃ s1, handleValidatorSignature k ctx s pk p b = Outcome.returned s1 ∧
      WindowInv s1 pk.Address W (flags ++ [b]) := by
  have hW0 : k.params.SignedBlocksWindow ≠ 0 := by rw [hW]; omega
  obtain ⟨s1, hret, hbit, hoff, hcnt⟩ := handleValidatorSignature_window k ctx s pk p b hW0
  refine ⟨s1, hret, ?_⟩
  have hoff0 : storedIndexOffset s pk.Address = (flags.length : Int) := by
    rw [h.offset, wrap64_natCast hlen]
  rw [hoff0, hW, rem64_natCast] at hbit hcnt
  have hidx : flags.length % W < W := Nat.mod_lt _ hpos
  -- the bit the call finds in its slot is the report that leaves the window
  have hprev : getValidatorSigningBitArray s pk.Address ((flags.length % W : Nat) : Int) =
      (decide (W ≤ flags.length) && flags.getD (flags.length - W) false) := by
    by_cases hc : W ≤ flags.length
    · have h1 := h.slot (flags.length - W) (by omega) (by omega)
      rw [← Nat.mod_eq_sub_mod hc] at h1
      rw [h1]
      simp [hc]
    · have h1 : flags.length % W = flags.length := Nat.mod_eq_of_lt (by omega)
      rw [h1, h.unset _ (Or.inr (by omega))]
      simp [hc]
  have hsnoc := count_recent_snoc flags b W hpos
  have hlen1 : ((flags ++ [b]).drop (flags.length + 1 - W)).count true ≤ W := by
    refine le_trans (List.count_le_length _ _) ?_
    rw [List.length_drop, List.length_append, List.length_singleton]
    omega
  have hlen0 : (flags.drop (flags.length - W)).count true ≤ W := by
    refine le_trans (List.count_le_length _ _) ?_
    rw [List.length_drop]
    omega
  have hupd := countP_range_update
    (fun i => getValidatorSigningBitArray s pk.Address (i : Int))
    (fun i => getValidatorSigningBitArray s1 pk.Address (i : Int)) b (flags.length % W) W hidx
    (by
      intro i
      simp only
      rw [hbit]
      by_cases hi : i = flags.length % W
      · rw [if_pos ⟨rfl, by rw [hi]⟩, if_pos hi]
      · have : ¬ ((i : Int) = ((flags.length % W : Nat) : Int)) := by
          intro hh
          exact hi (Int.ofNat_inj.mp hh)
        rw [if_neg (fun hh => this hh.2), if_neg hi])
  simp only at hupd
  have hrec := h.recent
  have hwin := h.window
  unfold signedBitsInWindow at hwin
  rw [Int.toNat_ofNat] at hwin
  unfold maxInt64 at hmax hlen
  -- the new counter is the old one, plus the new flag, minus the bit overwritten
  have hq : (W ≤ flags.length ∧ flags.getD (flags.length - W) false = true) ↔
      (decide (W ≤ flags.length) && flags.getD (flags.length - W) false) = true := by
    rw [Bool.and_eq_true, decide_eq_true_eq]
  simp only [hq] at hsnoc
  simp only [hprev] at hupd hcnt
  have hoff1 : storedIndexOffset s1 pk.Address = wrap64 ((flags ++ [b]).length : Int) := by
    rw [hoff, hoff0, List.length_append, List.length_singleton]
    push_cast
    rfl
  have hl1 : (flags ++ [b]).length - W = flags.length + 1 - W := by
    rw [List.length_append, List.length_singleton]
  generalize (decide (W ≤ flags.length) && flags.getD (flags.length - W) false) = q
    at hsnoc hupd hcnt
  have hnew : storedCounter s1 pk.Address + (if q = true then 1 else 0) =
      storedCounter s pk.Address + (if b = true then 1 else 0) := by
    rw [hcnt]
    cases b <;> cases q
    · simp
    · rw [if_neg (by simp), if_neg (by simp), wrap64_eq_self]
      · simp
      · unfold minInt64; omega
      · unfold maxInt64; omega
    · rw [if_neg (by simp), if_pos rfl, wrap64_eq_self]
      · simp
      · unfold minInt64; omega
      · simp only [Bool.false_eq_true, if_false, if_true] at hsnoc
        unfold maxInt64; omega
    · simp
  constructor
  · exact hoff1
  · unfold signedBitsInWindow
    rw [Int.toNat_ofNat]
    split_ifs at hnew hupd hsnoc <;> omega
  · rw [hl1]
    split_ifs at hnew hsnoc <;> omega
  · intro j hj1 hj2
    rw [List.length_append, List.length_singleton] at hj1 hj2
    rw [hbit]
    by_cases hj : j = flags.length
    · subst hj
      rw [if_pos ⟨rfl, rfl⟩]
      simp [List.getD_eq_getElem?_getD]
    · have hne : j % W ≠ flags.length % W := mod_ne_of_lt_of_lt (by omega) (by omega)
      have hne1 : ¬ ((j % W : Nat) : Int) = ((flags.length % W : Nat) : Int) := by
        intro hh
        exact hne (Int.ofNat_inj.mp hh)
      rw [if_neg (fun hh => hne1 hh.2), h.slot j (by omega) (by omega)]
      have hjl : j < flags.length := by omega
      simp [List.getD_eq_getElem?_getD, List.getElem?_append_left hjl]
  · intro i hi
    rw [List.length_append, List.length_singleton] at hi
    rw [hbit]
    have hle : flags.length % W ≤ flags.length := Nat.mod_le _ _
    have hne : ¬ i = ((flags.length % W : Nat) : Int) := by
      intro hh
      subst hh
      omega
    rw [if_neg (fun hh => hne hh.2)]
    apply h.unset
    omega

/-! ## Sequences of reports -/

theorem handleValidatorSignatures_append (k : Keeper) (pk : PubKey) (s : State)
    (rs : List Report) (r : Report) :
    handleValidatorSignatures k pk s (rs ++ [r]) =
      match handleValidatorSignatures k pk s rs with
      | Outcome.returned s1 => handleValidatorSignature k r.ctx s1 pk r.power r.signed
      | Outcome.panicked p s1 => Outcome.panicked p s1 := by
  induction rs generalizing s with
  | nil =>
    simp only [List.nil_append, handleValidatorSignatures]
    cases handleValidatorSignature k r.ctx s pk r.power r.signed <;> rfl
  | cons r0 rs ih =>
    simp only [List.cons_append, handleValidatorSignatures]
    cases handleValidatorSignature k r0.ctx s pk r0.power r0.signed with
    | returned s1 => exact ih s1
    | panicked p s1 => rfl

theorem handleValidatorSignature_stored (k : Keeper) (ctx : Ctx) (s s1 : State) (pk : PubKey)
    (p : Int) (b : Bool)
    (h : handleValidatorSignature k ctx s pk p b = Outcome.returned s1) :
    ∃ info, s1.signingInfo pk.Address = some info := by
  unfold handleValidatorSignature at h
  simp only at h
  split_ifs at h
  injection h with h
  subst h
  exact ⟨_, Function.update_same _ _ _⟩

theorem WindowInv.fresh (s : State) (a : List Nat) (W : Nat) (hinfo : s.signingInfo a = none)
    (hbits : ∀ i, getValidatorSigningBitArray s a i = false) : WindowInv s a W [] := by
  constructor
  · simp only [storedIndexOffset, hinfo, List.length_nil]
    rfl
  · simp only [storedCounter, hinfo, signedBitsInWindow]
    have : (List.range (W : Int).toNat).countP
        (fun (i : Nat) => getValidatorSigningBitArray s a (i : Int)) = 0 := by
      rw [List.countP_eq_zero]
      intro i _
      simp [hbits]
    rw [this]
    rfl
  · simp [storedCounter, hinfo]
  · intro j hj
    simp at hj
  · intro i _
    exact hbits i

/-- From a fresh validator, up to `2^63` reports run without a panic and leave
the window invariant for the flags reported. -/
theorem WindowInv.run (k : Keeper) (pk : PubKey) (s : State) (W : Nat)
    (hW : k.params.SignedBlocksWindow = (W : Int)) (hpos : 0 < W) (hmax : (W : Int) ≤ maxInt64)
    (hinfo : s.signingInfo pk.Address = none)
    (hbits : ∀ i, getValidatorSigningBitArray s pk.Address i = false) (rs : List Report)
    (hlen : (rs.length : Int) ≤ maxInt64 + 1) :
    ∃ s1, handleValidatorSignatures k pk s rs = Outcome.returned s1 ∧
      WindowInv s1 pk.Address W (rs.map Report.signed) ∧
      (rs ≠ [] → ∃ info, s1.signingInfo pk.Address = some info) := by
  induction rs using List.reverseRecOn with
  | nil =>
    exact ⟨s, rfl, WindowInv.fresh s pk.Address W hinfo hbits, fun h => absurd rfl h⟩
  | append_singleton rs r ih =>
    rw [List.length_append, List.length_singleton] at hlen
    push_cast at hlen
    obtain ⟨s1, hrun, hinv, _⟩ := ih (by omega)
    have hl : (((rs.map Report.signed).length : Nat) : Int) ≤ maxInt64 := by
      rw [List.length_map]
      omega
    obtain ⟨s2, hstep, hinv2⟩ :=
      WindowInv.step k r.ctx s1 pk r.power r.signed W _ hW hpos hmax hl hinv
    refine ⟨s2, ?_, ?_, ?_⟩
    · rw [handleValidatorSignatures_append, hrun]
      exact hstep
    · rw [List.map_append]
      exact hinv2
    · intro _
      exact handleValidatorSignature_stored k r.ctx s1 s2 pk r.power r.signed hstep

/-- Past the largest `int64`: after `2^63` reports with flag `b0` to the sample
keeper (window 3) the offset has wrapped to the smallest `int64`, whose
remainder by 3 is `-2`, so one more report, signed, sets the bit of slot `-2`
and counts it. -/
theorem past_overflow (b0 : Bool) (n : Nat) (hn : (n : Int) = maxInt64 + 1) :
    ∃ s1 s2,
      handleValidatorSignatures sampleKeeper samplePubKey emptyState
        (List.replicate n (sampleReport b0)) = Outcome.returned s1 ∧
      storedCounter s1 [7] = (if b0 = true then 3 else 0) ∧
      signedBitsInWindow s1 [7] 3 = (if b0 = true then 3 else 0) ∧
      getValidatorSigningBitArray s1 [7] 2 = b0 ∧
      handleValidatorSignatures sampleKeeper samplePubKey emptyState
        (List.replicate n (sampleReport b0) ++ [sampleReport true]) = Outcome.returned s2 ∧
      (∀ i, getValidatorSigningBitArray s2 [7] i =
        if i = -2 then true else getValidatorSigningBitArray s1 [7] i) ∧
      storedCounter s2 [7] = wrap64 (storedCounter s1 [7] + 1) ∧
      ∃ info, s2.signingInfo [7] = some info := by
  obtain ⟨s1, hrun, hinv, _⟩ := WindowInv.run sampleKeeper samplePubKey emptyState 3 rfl
    (by decide) (by decide) rfl (fun _ => rfl) (List.replicate n (sampleReport b0))
    (by rw [List.length_replicate]; omega)
  rw [List.map_replicate, show (sampleReport b0).signed = b0 from rfl] at hinv
  have hW0 : sampleKeeper.params.SignedBlocksWindow ≠ 0 := by decide
  obtain ⟨s2, hstep, hbit, _, hcnt⟩ :=
    handleValidatorSignature_window sampleKeeper ⟨0, 0⟩ s1 samplePubKey 1 true hW0
  have hoff : storedIndexOffset s1 samplePubKey.Address = minInt64 := by
    have h1 := hinv.offset
    rw [List.length_replicate, hn] at h1
    rw [h1]
    decide
  have hidx : rem64 (storedIndexOffset s1 samplePubKey.Address)
      sampleKeeper.params.SignedBlocksWindow = -2 := by
    rw [hoff]
    decide
  rw [hidx] at hbit hcnt
  have hprev : getValidatorSigningBitArray s1 samplePubKey.Address (-2) = false :=
    hinv.unset (-2) (Or.inl (by omega))
  rw [hprev] at hcnt
  have hn1 : n = 9223372036854775808 := by
    unfold maxInt64 at hn
    omega
  have hc : storedCounter s1 [7] = (if b0 = true then 3 else 0) := by
    have h1 := hinv.recent
    rw [List.length_replicate, List.drop_replicate] at h1
    have h2 : n - (n - 3) = 3 := by omega
    rw [h2] at h1
    rw [show samplePubKey.Address = [7] from rfl] at h1
    rw [h1]
    cases b0 <;> rfl
  have hw : signedBitsInWindow s1 [7] 3 = (if b0 = true then 3 else 0) := by
    have h1 := hinv.window
    rw [show samplePubKey.Address = [7] from rfl, hc] at h1
    have h2 : ((signedBitsInWindow s1 [7] ((3 : Nat) : Int) : Nat) : Int) =
        ((if b0 = true then 3 else 0 : Nat) : Int) := by
      rw [← h1]
      cases b0 <;> rfl
    exact Int.ofNat_inj.mp h2
  have hs : getValidatorSigningBitArray s1 [7] 2 = b0 := by
    have h1 := hinv.slot (n - 3) (by rw [List.length_replicate]; omega)
      (by rw [List.length_replicate]; omega)
    have h2 : (n - 3) % 3 = 2 := by omega
    rw [h2] at h1
    rw [show samplePubKey.Address = [7] from rfl] at h1
    rw [show (2 : Int) = ((2 : Nat) : Int) from rfl, h1]
    simp only [List.getD_eq_getElem?_getD, List.getElem?_replicate]
    rw [if_pos (by omega)]
    rfl
  refine ⟨s1, s2, hrun, hc, hw, hs, ?_, ?_, ?_, ?_⟩
  · rw [handleValidatorSignatures_append, hrun]
    exact hstep
  · intro i
    have h1 := hbit [7] i
    rw [h1]
    congr 1
    simp [samplePubKey]
  · rw [show samplePubKey.Address = [7] from rfl] at hcnt
    rw [hcnt]
    rfl
  · exact handleValidatorSignature_stored sampleKeeper ⟨0, 0⟩ s1 s2 samplePubKey 1 true hstep

theorem signedBitsInWindow_congr (s1 s2 : State) (a : List Nat) (W : Int)
    (h : ∀ i : Int, 0 ≤ i → getValidatorSigningBitArray s2 a i = getValidatorSigningBitArray s1 a i) :
    signedBitsInWindow s2 a W = signedBitsInWindow s1 a W := by
  unfold signedBitsInWindow
  apply List.countP_congr
  intro i _
  rw [h i (Int.ofNat_nonneg i)]

theorem last_flag (n : Nat) (b0 b1 : Bool) :
    ((List.replicate n (sampleReport b0) ++ [sampleReport b1]).map Report.signed).getD n
      false = b1 := by
  simp [List.getD_eq_getElem?_getD, sampleReport]

/-! ## The downtime check -/

theorem checkDowntime_punish (k : Keeper) (ctx : Ctx) (s : State) (pk : PubKey) (p : Int)
    (info : ValidatorSigningInfo) (v : Validator)
    (h1 : ctx.BlockHeight > wrap64 (info.StartHeight + k.params.SignedBlocksWindow))
    (h2 : info.SignedBlocksCounter < k.params.MinSignedPerWindow)
    (h3 : k.validatorSet.ValidatorByPubKey ctx s.calls pk = some v) (h4 : v.Revoked = false) :
    checkDowntime k ctx s pk p info =
      (Revoke (Slash s pk ctx.BlockHeight p k.params.SlashFractionDowntime) pk,
        { info with JailedUntil := timeAdd ctx.BlockTime k.params.DowntimeUnbondDuration }) := by
  unfold checkDowntime
  simp only
  rw [if_pos ⟨h1, h2⟩, h3]
  simp only
  rw [if_pos h4]

theorem checkDowntime_skip (k : Keeper) (ctx : Ctx) (s : State) (pk : PubKey) (p : Int)
    (info : ValidatorSigningInfo)
    (h : ¬ (ctx.BlockHeight > wrap64 (info.StartHeight + k.params.SignedBlocksWindow) ∧
      info.SignedBlocksCounter < k.params.MinSignedPerWindow ∧
      ∃ v, k.validatorSet.ValidatorByPubKey ctx s.calls pk = some v ∧ v.Revoked = false)) :
    checkDowntime k ctx s pk p info = (s, info) := by
  unfold checkDowntime
  simp only
  split_ifs with hc
  · split
    · rename_i v hv
      split_ifs with hr
      · exact absurd ⟨hc.1, hc.2, v, hv, hr⟩ h
      · rfl
    · rfl
  · rfl

/-- The record a `handleValidatorSignature` call persists and the calls it
makes, in terms of the downtime condition on the updated record. -/
theorem handleValidatorSignature_outcome (k : Keeper) (ctx : Ctx) (s : State) (pk : PubKey)
    (p : Int) (b : Bool) (hW : k.params.SignedBlocksWindow ≠ 0) :
    ∃ s1 info1, handleValidatorSignature k ctx s pk p b = Outcome.returned s1 ∧
      s1.signingInfo pk.Address = some info1 ∧
      (∀ a, a ≠ pk.Address → s1.signingInfo a = s.signingInfo a) ∧
      info1.StartHeight = (loadSigningInfo ctx s pk.Address).StartHeight ∧
      info1.IndexOffset = wrap64 ((loadSigningInfo ctx s pk.Address).IndexOffset + 1) ∧
      info1.SignedBlocksCounter =
        (if getValidatorSigningBitArray s pk.Address
            (rem64 (loadSigningInfo ctx s pk.Address).IndexOffset
              k.params.SignedBlocksWindow) = b
         then (loadSigningInfo ctx s pk.Address).SignedBlocksCounter
         else if b = true then wrap64 ((loadSigningInfo ctx s pk.Address).SignedBlocksCounter + 1)
         else wrap64 ((loadSigningInfo ctx s pk.Address).SignedBlocksCounter - 1)) ∧
      ((ctx.BlockHeight > wrap64 (info1.StartHeight + k.params.SignedBlocksWindow) ∧
          info1.SignedBlocksCounter < k.params.MinSignedPerWindow ∧
          ∃ v, k.validatorSet.ValidatorByPubKey ctx s.calls pk = some v ∧ v.Revoked = false) →
        s1.calls = s.calls ++
          [VSCall.Slash pk ctx.BlockHeight p k.params.SlashFractionDowntime, VSCall.Revoke pk] ∧
        info1.JailedUntil = timeAdd ctx.BlockTime k.params.DowntimeUnbondDuration) ∧
      (¬ (ctx.BlockHeight > wrap64 (info1.StartHeight + k.params.SignedBlocksWindow) ∧
          info1.SignedBlocksCounter < k.params.MinSignedPerWindow ∧
          ∃ v, k.validatorSet.ValidatorByPubKey ctx s.calls pk = some v ∧ v.Revoked = false) →
        s1.calls = s.calls ∧
        info1.JailedUntil = (loadSigningInfo ctx s pk.Address).JailedUntil) := by
  refine ⟨_, _, handleValidatorSignature_returned k ctx s pk p b hW,
    Function.update_same _ _ _, ?_, ?_, ?_, ?_, ?_, ?_⟩
  · intro a ha
    simp only [setValidatorSigningInfo]
    rw [Function.update_noteq ha, checkDowntime_signingInfo, updateWindow_signingInfo]
  · rw [(checkDowntime_fields _ _ _ _ _ _).1, updateWindow_StartHeight]
  · rw [(checkDowntime_fields _ _ _ _ _ _).2.1, updateWindow_IndexOffset]
  · rw [(checkDowntime_fields _ _ _ _ _ _).2.2, updateWindow_counter]
  · rw [(checkDowntime_fields _ _ _ _ _ _).1, (checkDowntime_fields _ _ _ _ _ _).2.2]
    rintro ⟨h1, h2, v, h3, h4⟩
    rw [← updateWindow_calls s pk.Address
      (rem64 (loadSigningInfo ctx s pk.Address).IndexOffset k.params.SignedBlocksWindow) b
      (loadSigningInfo ctx s pk.Address)] at h3
    rw [checkDowntime_punish k ctx _ pk p _ v h1 h2 h3 h4]
    simp only [setValidatorSigningInfo, Revoke, Slash, updateWindow_calls, List.append_assoc,
      List.singleton_append, and_self]
  · rw [(checkDowntime_fields _ _ _ _ _ _).1, (checkDowntime_fields _ _ _ _ _ _).2.2]
    intro h
    rw [← updateWindow_calls s pk.Address
      (rem64 (loadSigningInfo ctx s pk.Address).IndexOffset k.params.SignedBlocksWindow) b
      (loadSigningInfo ctx s pk.Address)] at h
    rw [checkDowntime_skip k ctx _ pk p _ h]
    simp only [setValidatorSigningInfo, updateWindow_calls, updateWindow_JailedUntil, and_self]

theorem loadSigningInfo_of_some (ctx : Ctx) (s : State) (a : List Nat)
    (info : ValidatorSigningInfo) (h : s.signingInfo a = some info) :
    loadSigningInfo ctx s a = info := by
  unfold loadSigningInfo getValidatorSigningInfo
  rw [h]

/-! ## The double-sign handler -/

theorem handleDoubleSign_stale (k : Keeper) (ctx : Ctx) (s : State) (pk : PubKey)
    (ih ts p : Int) (h : timeSub ctx.BlockTime ts > k.params.MaxEvidenceAge) :
    handleDoubleSign k ctx s pk ih ts p = Outcome.returned s := by
  unfold handleDoubleSign
  simp only
  rw [if_pos h]

theorem handleDoubleSign_missing (k : Keeper) (ctx : Ctx) (s : State) (pk : PubKey)
    (ih ts p : Int) (h : ¬ timeSub ctx.BlockTime ts > k.params.MaxEvidenceAge)
    (hinfo : s.signingInfo pk.Address = none) :
    handleDoubleSign k ctx s pk ih ts p =
      Outcome.panicked (Panic.signingInfoNotFound pk.Address)
        (Revoke (Slash s pk ih p k.params.SlashFractionDoubleSign) pk) := by
  unfold handleDoubleSign
  simp only
  rw [if_neg h]
  have h1 : getValidatorSigningInfo
      (Revoke (Slash s pk ih p k.params.SlashFractionDoubleSign) pk) pk.Address = none := hinfo
  rw [h1]

theorem handleDoubleSign_jail (k : Keeper) (ctx : Ctx) (s : State) (pk : PubKey)
    (ih ts p : Int) (info : ValidatorSigningInfo)
    (h : ¬ timeSub ctx.BlockTime ts > k.params.MaxEvidenceAge)
    (hinfo : s.signingInfo pk.Address = some info) :
    handleDoubleSign k ctx s pk ih ts p =
      Outcome.returned
        (setValidatorSigningInfo (Revoke (Slash s pk ih p k.params.SlashFractionDoubleSign) pk)
          pk.Address
          { info with JailedUntil := timeAdd ctx.BlockTime k.params.DoubleSignUnbondDuration }) := by
  unfold handleDoubleSign
  simp only
  rw [if_neg h]
  have h1 : getValidatorSigningInfo
      (Revoke (Slash s pk ih p k.params.SlashFractionDoubleSign) pk) pk.Address = some info :=
    hinfo
  rw [h1]

theorem calls_append_ne (l : List VSCall) (c1 c2 : VSCall) : l ++ [c1, c2] ≠ l := by
  intro h
  have := congrArg List.length h
  simp at this

/-! ## Claims -/

/-- C1, amended. Counter invariant: for a window size `0 < W` (an `int64`) and a
validator with no signing info and no bit set, after every sequence of at most
`2^63` `handleValidatorSignature` calls, whatever the flags and the heights,
the calls return, a record is stored once a call was made, and the stored
`SignedBlocksCounter` is the number of slots in `[0, W)` whose bit is true. -/
theorem counter_matches_window_below_overflow (k : Keeper) (pk : PubKey) (s : State)
    (rs : List Report) (hpos : 0 < k.params.SignedBlocksWindow)
    (hmax : k.params.SignedBlocksWindow ≤ maxInt64)
    (hinfo : s.signingInfo pk.Address = none)
    (hbits : ∀ i, getValidatorSigningBitArray s pk.Address i = false)
    (hlen : (rs.length : Int) ≤ maxInt64 + 1) :
    ∃ s1, handleValidatorSignatures k pk s rs = Outcome.returned s1 ∧
      (rs ≠ [] → ∃ info, s1.signingInfo pk.Address = some info) ∧
      ∀ info, s1.signingInfo pk.Address = some info →
        info.SignedBlocksCounter =
          (signedBitsInWindow s1 pk.Address k.params.SignedBlocksWindow : Int) := by
  have hW : k.params.SignedBlocksWindow = ((k.params.SignedBlocksWindow.toNat : Nat) : Int) :=
    (Int.toNat_of_nonneg (le_of_lt hpos)).symm
  obtain ⟨s1, hrun, hinv, hex⟩ := WindowInv.run k pk s k.params.SignedBlocksWindow.toNat hW
    (by omega) (by omega) hinfo hbits rs hlen
  refine ⟨s1, hrun, hex, ?_⟩
  intro info hi
  have h1 := hinv.window
  rw [← hW] at h1
  simpa [storedCounter, hi] using h1

/-- C1, amended, on a sample: five reports to the sample keeper (window 3). -/
theorem counter_matches_window_below_overflow_witness :
    ∃ s1, handleValidatorSignatures sampleKeeper samplePubKey emptyState sampleReports =
        Outcome.returned s1 ∧
      (sampleReports ≠ [] → ∃ info, s1.signingInfo samplePubKey.Address = some info) ∧
      ∀ info, s1.signingInfo samplePubKey.Address = some info →
        info.SignedBlocksCounter =
          (signedBitsInWindow s1 samplePubKey.Address
            sampleKeeper.params.SignedBlocksWindow : Int) :=
  counter_matches_window_below_overflow sampleKeeper samplePubKey emptyState sampleReports
    (by decide) (by decide) rfl (fun _ => rfl) (by decide)

/-- C1 as stated fails: after `2^63 + 1` signed reports to the sample keeper
(window 3) the stored counter is 4 while 3 slots of `[0, 3)` are set. -/
theorem counter_exceeds_window_past_overflow :
    ((handleValidatorSignatures sampleKeeper samplePubKey emptyState
        (List.replicate 9223372036854775808 (sampleReport true) ++
          [sampleReport true])).state.signingInfo [7]).map
        ValidatorSigningInfo.SignedBlocksCounter = some 4 ∧
    signedBitsInWindow
      (handleValidatorSignatures sampleKeeper samplePubKey emptyState
        (List.replicate 9223372036854775808 (sampleReport true) ++
          [sampleReport true])).state [7] 3 = 3 := by
  obtain ⟨s1, s2, _, hc, hw, _, hrun, hbit, hcnt, info, hinfo⟩ :=
    past_overflow true 9223372036854775808 (by decide)
  rw [hrun]
  constructor
  · rw [hc] at hcnt
    simp only [storedCounter, hinfo] at hcnt
    simp only [Outcome.state, hinfo, Option.map_some', hcnt]
    decide
  · rw [show (Outcome.returned s2).state = s2 from rfl,
      signedBitsInWindow_congr s1 s2 [7] 3 (fun i hi => by rw [hbit, if_neg (by omega)]), hw]
    rfl

/-- C2, amended. Sliding-window reference: for a window size `0 < W` and a fresh
validator, after `n ≤ 2^63` `handleValidatorSignature` calls with flags
`s_1 .. s_n` the calls return, the stored `SignedBlocksCounter` is the number of
true flags among the last `min n W` reports, and slot `(j - 1) mod W` reads
`s_j` for each of those reports `j`. -/
theorem recent_reports_below_overflow (k : Keeper) (pk : PubKey) (s : State)
    (rs : List Report) (hpos : 0 < k.params.SignedBlocksWindow)
    (hmax : k.params.SignedBlocksWindow ≤ maxInt64)
    (hinfo : s.signingInfo pk.Address = none)
    (hbits : ∀ i, getValidatorSigningBitArray s pk.Address i = false)
    (hlen : (rs.length : Int) ≤ maxInt64 + 1) :
    ∃ s1, handleValidatorSignatures k pk s rs = Outcome.returned s1 ∧
      (rs ≠ [] → ∃ info, s1.signingInfo pk.Address = some info) ∧
      (∀ info, s1.signingInfo pk.Address = some info →
        info.SignedBlocksCounter =
          ((((rs.map Report.signed).drop
            (rs.length - min rs.length k.params.SignedBlocksWindow.toNat)).count true : Nat) :
              Int)) ∧
      ∀ j : Nat, rs.length - min rs.length k.params.SignedBlocksWindow.toNat < j →
        j ≤ rs.length →
        getValidatorSigningBitArray s1 pk.Address
            (((j - 1 : Nat) : Int) % k.params.SignedBlocksWindow) =
          (rs.map Report.signed).getD (j - 1) false := by
  obtain ⟨W, hW⟩ := Int.eq_ofNat_of_zero_le (le_of_lt hpos)
  rw [hW] at hpos hmax
  obtain ⟨s1, hrun, hinv, hex⟩ := WindowInv.run k pk s W hW
    (by omega) hmax hinfo hbits rs hlen
  rw [hW, Int.toNat_ofNat]
  have hsub : rs.length - min rs.length W = rs.length - W := by omega
  rw [hsub]
  refine ⟨s1, hrun, hex, ?_, ?_⟩
  · intro info hi
    have h1 := hinv.recent
    rw [List.length_map] at h1
    simpa [storedCounter, hi] using h1
  · intro j hj1 hj2
    have h1 := hinv.slot (j - 1) (by rw [List.length_map]; omega)
      (by rw [List.length_map]; omega)
    rw [← h1, Int.ofNat_emod]

/-- C2, amended, on a sample: five reports to the sample keeper (window 3). -/
theorem recent_reports_below_overflow_witness :
    ∃ s1, handleValidatorSignatures sampleKeeper samplePubKey emptyState sampleReportsB =
        Outcome.returned s1 ∧
      (sampleReportsB ≠ [] → ∃ info, s1.signingInfo samplePubKey.Address = some info) ∧
      (∀ info, s1.signingInfo samplePubKey.Address = some info →
        info.SignedBlocksCounter =
          ((((sampleReportsB.map Report.signed).drop
            (sampleReportsB.length -
              min sampleReportsB.length sampleKeeper.params.SignedBlocksWindow.toNat)).count
                true : Nat) : Int)) ∧
      ∀ j : Nat,
        sampleReportsB.length -
            min sampleReportsB.length sampleKeeper.params.SignedBlocksWindow.toNat < j →
        j ≤ sampleReportsB.length →
        getValidatorSigningBitArray s1 samplePubKey.Address
            (((j - 1 : Nat) : Int) % sampleKeeper.params.SignedBlocksWindow) =
          (sampleReportsB.map Report.signed).getD (j - 1) false :=
  recent_reports_below_overflow sampleKeeper samplePubKey emptyState sampleReportsB
    (by decide) (by decide) rfl (fun _ => rfl) (by decide)

/-- C2 as stated fails: after `2^63` unsigned reports and one signed report to
the sample keeper (window 3), the last report is number `n = 2^63 + 1` and its
flag is true, but slot `(n - 1) mod 3 = 2` reads false: the bit went to slot
`-2`. -/
theorem last_report_misses_its_slot_past_overflow :
    getValidatorSigningBitArray
      (handleValidatorSignatures sampleKeeper samplePubKey emptyState
        (List.replicate 9223372036854775808 (sampleReport false) ++
          [sampleReport true])).state [7] ((9223372036854775808 : Int) % 3) = false ∧
    ((List.replicate 9223372036854775808 (sampleReport false) ++
        [sampleReport true]).map Report.signed).getD 9223372036854775808 false = true := by
  obtain ⟨s1, s2, _, _, _, hs, hrun, hbit, _, _⟩ :=
    past_overflow false 9223372036854775808 (by decide)
  rw [hrun]
  constructor
  · rw [show (Outcome.returned s2).state = s2 from rfl,
      show ((9223372036854775808 : Int) % 3) = 2 from by decide, hbit,
      if_neg (by decide), hs]
  · exact last_flag 9223372036854775808 false true

/-- The punishment condition in the arithmetic of the code: a
`handleValidatorSignature` call at height `h` (window not zero) returns, and
the calls it makes on the validator set are `Slash` then `Revoke` exactly when
`h` is above the `int64` sum `StartHeight + SignedBlocksWindow` of line 107,
which wraps, the counter it persists is below `MinSignedPerWindow`, and
`ValidatorByPubKey` finds a validator that is not revoked; otherwise it makes no
call. -/
theorem downtime_punishment_iff (k : Keeper) (ctx : Ctx) (s : State) (pk : PubKey) (p : Int)
    (b : Bool) (hW : k.params.SignedBlocksWindow ≠ 0) :
    ∃ s1 info1, handleValidatorSignature k ctx s pk p b = Outcome.returned s1 ∧
      s1.signingInfo pk.Address = some info1 ∧
      info1.StartHeight = (loadSigningInfo ctx s pk.Address).StartHeight ∧
      (s1.calls = s.calls ++
          [VSCall.Slash pk ctx.BlockHeight p k.params.SlashFractionDowntime, VSCall.Revoke pk] ↔
        (ctx.BlockHeight > wrap64 (info1.StartHeight + k.params.SignedBlocksWindow) ∧
          info1.SignedBlocksCounter < k.params.MinSignedPerWindow ∧
          ∃ v, k.validatorSet.ValidatorByPubKey ctx s.calls pk = some v ∧ v.Revoked = false)) ∧
      (s1.calls = s.calls ↔
        ¬ (ctx.BlockHeight > wrap64 (info1.StartHeight + k.params.SignedBlocksWindow) ∧
          info1.SignedBlocksCounter < k.params.MinSignedPerWindow ∧
          ∃ v, k.validatorSet.ValidatorByPubKey ctx s.calls pk = some v ∧ v.Revoked = false)) ∧
      (k.params.SignedBlocksWindow = 100 → k.params.MinSignedPerWindow = 50 →
        info1.SignedBlocksCounter = 50 → s1.calls = s.calls) ∧
      (k.params.SignedBlocksWindow = 100 → k.params.MinSignedPerWindow = 50 →
        info1.SignedBlocksCounter = 49 →
        ctx.BlockHeight > wrap64 (info1.StartHeight + 100) →
        (∃ v, k.validatorSet.ValidatorByPubKey ctx s.calls pk = some v ∧ v.Revoked = false) →
        s1.calls = s.calls ++
          [VSCall.Slash pk ctx.BlockHeight p k.params.SlashFractionDowntime,
            VSCall.Revoke pk]) := by
  obtain ⟨s1, info1, hret, hinfo, _, hstart, _, _, hyes, hno⟩ :=
    handleValidatorSignature_outcome k ctx s pk p b hW
  have hne := calls_append_ne s.calls
    (VSCall.Slash pk ctx.BlockHeight p k.params.SlashFractionDowntime) (VSCall.Revoke pk)
  refine ⟨s1, info1, hret, hinfo, hstart, ?_, ?_, ?_, ?_⟩
  · constructor
    · intro h
      by_contra hc
      rw [(hno hc).1] at h
      exact hne h.symm
    · intro hc
      exact (hyes hc).1
  · constructor
    · intro h hc
      rw [(hyes hc).1] at h
      exact hne h
    · intro hc
      exact (hno hc).1
  · intro _ h2 h3
    apply (hno _).1
    rintro ⟨_, hlt, _⟩
    rw [h2, h3] at hlt
    exact absurd hlt (by decide)
  · intro h1 h2 h3 h4 h5
    apply (hyes ⟨_, _, h5⟩).1
    · rw [h1]
      exact h4
    · rw [h2, h3]
      decide

/-- C5. Downtime punishment effect: when a `handleValidatorSignature` call
(window not zero) is past the grace period with the counter it persists below
the threshold and `ValidatorByPubKey` finds a validator that is not revoked, it
returns, the calls it makes on the validator set are exactly one `Slash` with
the block's height, the reported power and `SlashFractionDowntime`, followed by
one `Revoke` of the same key, and the record it persists has
`JailedUntil = block time + DowntimeUnbondDuration`. -/
theorem downtime_punishment_effect (k : Keeper) (ctx : Ctx) (s : State) (pk : PubKey)
    (p : Int) (b : Bool) (info1 : ValidatorSigningInfo) (v : Validator)
    (hW : k.params.SignedBlocksWindow ≠ 0)
    (hinfo : (handleValidatorSignature k ctx s pk p b).state.signingInfo pk.Address = some info1)
    (hgrace : ctx.BlockHeight > wrap64 (info1.StartHeight + k.params.SignedBlocksWindow))
    (hcnt : info1.SignedBlocksCounter < k.params.MinSignedPerWindow)
    (hv : k.validatorSet.ValidatorByPubKey ctx s.calls pk = some v)
    (hrev : v.Revoked = false) :
    (handleValidatorSignature k ctx s pk p b).isPanic = false ∧
    (handleValidatorSignature k ctx s pk p b).state.calls = s.calls ++
      [VSCall.Slash pk ctx.BlockHeight p k.params.SlashFractionDowntime, VSCall.Revoke pk] ∧
    info1.JailedUntil = ctx.BlockTime + k.params.DowntimeUnbondDuration := by
  obtain ⟨s1, info2, hret, hinfo2, _, _, _, _, hyes, _⟩ :=
    handleValidatorSignature_outcome k ctx s pk p b hW
  rw [hret] at hinfo ⊢
  simp only [Outcome.state, hinfo2, Option.some.injEq] at hinfo
  subst hinfo
  have h := hyes ⟨hgrace, hcnt, v, hv, hrev⟩
  exact ⟨rfl, h.1, h.2⟩

/-- C5 on a sample: window 3, threshold 2, a validator tracked since height 10
with an empty window, absent at height 14 (time 1000) and still active. -/
theorem downtime_punishment_effect_witness :
    (handleValidatorSignature sampleKeeper ⟨14, 1000⟩ trackedState samplePubKey 10
        false).isPanic = false ∧
    (handleValidatorSignature sampleKeeper ⟨14, 1000⟩ trackedState samplePubKey 10
        false).state.calls = trackedState.calls ++
      [VSCall.Slash samplePubKey (Ctx.mk 14 1000).BlockHeight 10
        sampleKeeper.params.SlashFractionDowntime, VSCall.Revoke samplePubKey] ∧
    (ValidatorSigningInfo.mk 10 1 1007 0).JailedUntil =
      (Ctx.mk 14 1000).BlockTime + sampleKeeper.params.DowntimeUnbondDuration :=
  downtime_punishment_effect sampleKeeper ⟨14, 1000⟩ trackedState samplePubKey 10 false
    ⟨10, 1, 1007, 0⟩ ⟨false⟩ (by decide) (by decide) (by decide) (by decide) rfl rfl

/-- C6. No double punishment: when `ValidatorByPubKey` finds no validator, or
one that is already revoked, a `handleValidatorSignature` call (window not
zero) returns without any `Slash` or `Revoke` call and with `JailedUntil` as it
was, and still persists the bumped `IndexOffset`, the adjusted
`SignedBlocksCounter` and the new observation in the slot. -/
theorem no_double_punishment (k : Keeper) (ctx : Ctx) (s : State) (pk : PubKey) (p : Int)
    (b : Bool) (hW : k.params.SignedBlocksWindow ≠ 0)
    (hv : k.validatorSet.ValidatorByPubKey ctx s.calls pk = none ∨
      ∃ v, k.validatorSet.ValidatorByPubKey ctx s.calls pk = some v ∧ v.Revoked = true) :
    ∃ s1 info1, handleValidatorSignature k ctx s pk p b = Outcome.returned s1 ∧
      s1.calls = s.calls ∧
      s1.signingInfo pk.Address = some info1 ∧
      info1.JailedUntil = (loadSigningInfo ctx s pk.Address).JailedUntil ∧
      info1.IndexOffset = wrap64 ((loadSigningInfo ctx s pk.Address).IndexOffset + 1) ∧
      info1.SignedBlocksCounter =
        (if getValidatorSigningBitArray s pk.Address
            (rem64 (loadSigningInfo ctx s pk.Address).IndexOffset
              k.params.SignedBlocksWindow) = b
         then (loadSigningInfo ctx s pk.Address).SignedBlocksCounter
         else if b = true then wrap64 ((loadSigningInfo ctx s pk.Address).SignedBlocksCounter + 1)
         else wrap64 ((loadSigningInfo ctx s pk.Address).SignedBlocksCounter - 1)) ∧
      getValidatorSigningBitArray s1 pk.Address
        (rem64 (loadSigningInfo ctx s pk.Address).IndexOffset k.params.SignedBlocksWindow) = b := by
  obtain ⟨s1, info1, hret, hinfo1, _, _, hoff, hcnt, _, hno⟩ :=
    handleValidatorSignature_outcome k ctx s pk p b hW
  obtain ⟨s2, hret2, hbit, _, _⟩ := handleValidatorSignature_window k ctx s pk p b hW
  rw [hret] at hret2
  injection hret2 with hs
  subst hs
  have hskip := hno (by
    rintro ⟨_, _, v, h1, h2⟩
    rcases hv with h | ⟨v1, h3, h4⟩
    · rw [h] at h1
      exact Option.noConfusion h1
    · rw [h3] at h1
      injection h1 with h1
      subst h1
      rw [h2] at h4
      exact Bool.noConfusion h4)
  refine ⟨s1, info1, hret, hskip.1, hinfo1, hskip.2, hoff, hcnt, ?_⟩
  rw [hbit, loadSigningInfo_IndexOffset, if_pos ⟨rfl, rfl⟩]

/-- C6 on a sample: window 3, threshold 2, a validator tracked since height 10
with an empty window, absent at height 14, unknown to the validator set. -/
theorem no_double_punishment_witness :
    ∃ s1 info1,
      handleValidatorSignature (NewKeeper noValidators sampleParams) ⟨14, 1000⟩ trackedState
        samplePubKey 10 false = Outcome.returned s1 ∧
      s1.calls = trackedState.calls ∧
      s1.signingInfo samplePubKey.Address = some info1 ∧
      info1.JailedUntil =
        (loadSigningInfo ⟨14, 1000⟩ trackedState samplePubKey.Address).JailedUntil ∧
      info1.IndexOffset =
        wrap64 ((loadSigningInfo ⟨14, 1000⟩ trackedState samplePubKey.Address).IndexOffset + 1) ∧
      info1.SignedBlocksCounter =
        (if getValidatorSigningBitArray trackedState samplePubKey.Address
            (rem64 (loadSigningInfo ⟨14, 1000⟩ trackedState samplePubKey.Address).IndexOffset
              (NewKeeper noValidators sampleParams).params.SignedBlocksWindow) = false
         then (loadSigningInfo ⟨14, 1000⟩ trackedState samplePubKey.Address).SignedBlocksCounter
         else if false = true then
          wrap64 ((loadSigningInfo ⟨14, 1000⟩ trackedState
            samplePubKey.Address).SignedBlocksCounter + 1)
         else
          wrap64 ((loadSigningInfo ⟨14, 1000⟩ trackedState
            samplePubKey.Address).SignedBlocksCounter - 1)) ∧
      getValidatorSigningBitArray s1 samplePubKey.Address
        (rem64 (loadSigningInfo ⟨14, 1000⟩ trackedState samplePubKey.Address).IndexOffset
          (NewKeeper noValidators sampleParams).params.SignedBlocksWindow) = false :=
  no_double_punishment (NewKeeper noValidators sampleParams) ⟨14, 1000⟩ trackedState
    samplePubKey 10 false (by decide) (Or.inl rfl)

/-- C7. Evidence staleness boundary: with `age` the result of
`ctx.BlockHeader().Time.Sub(timestamp)`, `handleDoubleSign` makes no call on the
validator set exactly when `age > MaxEvidenceAge`, and then it returns with the
whole state, every signing-info record included, unchanged; otherwise `Slash`
and `Revoke` are called. Evidence of age exactly `MaxEvidenceAge` is acted upon
and evidence of age `MaxEvidenceAge + 1` nanosecond is discarded, in particular
for 48h and 48h + 1ns with `MaxEvidenceAge = 48h`. -/
theorem evidence_staleness_boundary (k : Keeper) (ctx : Ctx) (s : State) (pk : PubKey)
    (ih ts p : Int) :
    ((handleDoubleSign k ctx s pk ih ts p).state.calls = s.calls ↔
      timeSub ctx.BlockTime ts > k.params.MaxEvidenceAge) ∧
    (timeSub ctx.BlockTime ts > k.params.MaxEvidenceAge →
      handleDoubleSign k ctx s pk ih ts p = Outcome.returned s) ∧
    (¬ timeSub ctx.BlockTime ts > k.params.MaxEvidenceAge →
      (handleDoubleSign k ctx s pk ih ts p).state.calls = s.calls ++
        [VSCall.Slash pk ih p k.params.SlashFractionDoubleSign, VSCall.Revoke pk]) ∧
    (timeSub ctx.BlockTime ts = k.params.MaxEvidenceAge →
      (handleDoubleSign k ctx s pk ih ts p).state.calls = s.calls ++
        [VSCall.Slash pk ih p k.params.SlashFractionDoubleSign, VSCall.Revoke pk]) ∧
    (timeSub ctx.BlockTime ts = k.params.MaxEvidenceAge + 1 →
      handleDoubleSign k ctx s pk ih ts p = Outcome.returned s) ∧
    (k.params.MaxEvidenceAge = 172800000000000 →
      (timeSub ctx.BlockTime ts = 172800000000000 →
        (handleDoubleSign k ctx s pk ih ts p).state.calls = s.calls ++
          [VSCall.Slash pk ih p k.params.SlashFractionDoubleSign, VSCall.Revoke pk]) ∧
      (timeSub ctx.BlockTime ts = 172800000000001 →
        handleDoubleSign k ctx s pk ih ts p = Outcome.returned s)) := by
  have hacted : ¬ timeSub ctx.BlockTime ts > k.params.MaxEvidenceAge →
      (handleDoubleSign k ctx s pk ih ts p).state.calls = s.calls ++
        [VSCall.Slash pk ih p k.params.SlashFractionDoubleSign, VSCall.Revoke pk] := by
    intro h
    cases hinfo : s.signingInfo pk.Address with
    | none =>
      rw [handleDoubleSign_missing k ctx s pk ih ts p h hinfo]
      simp [Outcome.state, Revoke, Slash]
    | some info =>
      rw [handleDoubleSign_jail k ctx s pk ih ts p info h hinfo]
      simp [Outcome.state, setValidatorSigningInfo, Revoke, Slash]
  have hstale := handleDoubleSign_stale k ctx s pk ih ts p
  refine ⟨⟨?_, ?_⟩, hstale, hacted, ?_, ?_, ?_⟩
  · intro h
    by_contra hc
    rw [hacted hc] at h
    exact calls_append_ne _ _ _ h
  · intro h
    rw [hstale h]
    rfl
  · intro h
    exact hacted (by omega)
  · intro h
    exact hstale (by omega)
  · intro hmax
    exact ⟨fun h => hacted (by omega), fun h => hstale (by omega)⟩

/-- C8. Double-sign punishment effect: a `handleDoubleSign` call whose evidence
is not stale, for a validator that has a signing-info record, returns, calls
`Slash` exactly once with the infraction height, the reported power and
`SlashFractionDoubleSign`, then `Revoke` exactly once, and persists the record
with `JailedUntil = block time + DoubleSignUnbondDuration`. -/
theorem double_sign_punishment_effect (k : Keeper) (ctx : Ctx) (s : State) (pk : PubKey)
    (ih ts p : Int) (info : ValidatorSigningInfo)
    (hage : timeSub ctx.BlockTime ts ≤ k.params.MaxEvidenceAge)
    (hinfo : s.signingInfo pk.Address = some info) :
    ∃ s1, handleDoubleSign k ctx s pk ih ts p = Outcome.returned s1 ∧
      s1.calls = s.calls ++
        [VSCall.Slash pk ih p k.params.SlashFractionDoubleSign, VSCall.Revoke pk] ∧
      s1.signingInfo pk.Address =
        some { info with JailedUntil := ctx.BlockTime + k.params.DoubleSignUnbondDuration } := by
  refine ⟨_, handleDoubleSign_jail k ctx s pk ih ts p info (by omega) hinfo, ?_, ?_⟩
  · simp [setValidatorSigningInfo, Revoke, Slash]
  · exact Function.update_same _ _ _

/-- C8 on a sample: evidence of age exactly 48h against a tracked validator,
with an infraction height (77) that is not the current height (500). -/
theorem double_sign_punishment_effect_witness :
    ∃ s1, handleDoubleSign sampleKeeper lateCtx trackedState samplePubKey 77 1000 10 =
        Outcome.returned s1 ∧
      s1.calls = trackedState.calls ++
        [VSCall.Slash samplePubKey 77 10 sampleKeeper.params.SlashFractionDoubleSign,
          VSCall.Revoke samplePubKey] ∧
      s1.signingInfo samplePubKey.Address =
        some { (ValidatorSigningInfo.mk 10 0 0 0) with
          JailedUntil := lateCtx.BlockTime + sampleKeeper.params.DoubleSignUnbondDuration } :=
  double_sign_punishment_effect sampleKeeper lateCtx trackedState samplePubKey 77 1000 10
    ⟨10, 0, 0, 0⟩ (by decide) rfl

/-- C9. Double-sign independence: when a `handleDoubleSign` call returns, stale
or not, every validator's `StartHeight`, `IndexOffset` and
`SignedBlocksCounter` and the whole signing bit array are as before; of a
record only `JailedUntil` may differ. -/
theorem double_sign_independence (k : Keeper) (ctx : Ctx) (s s1 : State) (pk : PubKey)
    (ih ts p : Int) (h : handleDoubleSign k ctx s pk ih ts p = Outcome.returned s1) :
    s1.bitArray = s.bitArray ∧
    ∀ a, (s1.signingInfo a).map ValidatorSigningInfo.StartHeight =
        (s.signingInfo a).map ValidatorSigningInfo.StartHeight ∧
      (s1.signingInfo a).map ValidatorSigningInfo.IndexOffset =
        (s.signingInfo a).map ValidatorSigningInfo.IndexOffset ∧
      (s1.signingInfo a).map ValidatorSigningInfo.SignedBlocksCounter =
        (s.signingInfo a).map ValidatorSigningInfo.SignedBlocksCounter := by
  by_cases hage : timeSub ctx.BlockTime ts > k.params.MaxEvidenceAge
  · rw [handleDoubleSign_stale k ctx s pk ih ts p hage] at h
    injection h with h
    subst h
    exact ⟨rfl, fun a => ⟨rfl, rfl, rfl⟩⟩
  · cases hinfo : s.signingInfo pk.Address with
    | none =>
      rw [handleDoubleSign_missing k ctx s pk ih ts p hage hinfo] at h
      exact Outcome.noConfusion h
    | some info =>
      rw [handleDoubleSign_jail k ctx s pk ih ts p info hage hinfo] at h
      injection h with h
      subst h
      refine ⟨rfl, fun a => ?_⟩
      by_cases ha : a = pk.Address
      · subst ha
        simp [setValidatorSigningInfo, Revoke, Slash, hinfo]
      · simp [setValidatorSigningInfo, Revoke, Slash, Function.update_noteq ha]

/-- C9 on a sample: evidence of age exactly 48h against a tracked validator. -/
theorem double_sign_independence_witness :
    (handleDoubleSign sampleKeeper lateCtx trackedState samplePubKey 77 1000 10).state.bitArray =
      trackedState.bitArray ∧
    ∀ a, ((handleDoubleSign sampleKeeper lateCtx trackedState samplePubKey 77 1000
          10).state.signingInfo a).map ValidatorSigningInfo.StartHeight =
        (trackedState.signingInfo a).map ValidatorSigningInfo.StartHeight ∧
      ((handleDoubleSign sampleKeeper lateCtx trackedState samplePubKey 77 1000
          10).state.signingInfo a).map ValidatorSigningInfo.IndexOffset =
        (trackedState.signingInfo a).map ValidatorSigningInfo.IndexOffset ∧
      ((handleDoubleSign sampleKeeper lateCtx trackedState samplePubKey 77 1000
          10).state.signingInfo a).map ValidatorSigningInfo.SignedBlocksCounter =
        (trackedState.signingInfo a).map ValidatorSigningInfo.SignedBlocksCounter :=
  double_sign_independence sampleKeeper lateCtx trackedState
    (handleDoubleSign sampleKeeper lateCtx trackedState samplePubKey 77 1000 10).state
    samplePubKey 77 1000 10 rfl

/-- C10. Double-sign fatal failure: `handleDoubleSign` panics exactly when the
evidence is not stale (`age ≤ MaxEvidenceAge`) and there is no signing-info
record for the address of the public key; otherwise it returns. -/
theorem double_sign_panics_iff (k : Keeper) (ctx : Ctx) (s : State) (pk : PubKey)
    (ih ts p : Int) :
    ((handleDoubleSign k ctx s pk ih ts p).isPanic = true ↔
      (timeSub ctx.BlockTime ts ≤ k.params.MaxEvidenceAge ∧ s.signingInfo pk.Address = none)) ∧
    ((handleDoubleSign k ctx s pk ih ts p).isPanic = false ↔
      ∃ s1, handleDoubleSign k ctx s pk ih ts p = Outcome.returned s1) := by
  by_cases hage : timeSub ctx.BlockTime ts > k.params.MaxEvidenceAge
  · rw [handleDoubleSign_stale k ctx s pk ih ts p hage]
    simp only [Outcome.isPanic, Bool.false_eq_true, false_iff, not_and, true_iff]
    exact ⟨fun h => absurd h (by omega), ⟨s, rfl⟩⟩
  · cases hinfo : s.signingInfo pk.Address with
    | none =>
      rw [handleDoubleSign_missing k ctx s pk ih ts p hage hinfo]
      simp only [Outcome.isPanic, true_iff, Bool.true_eq_false, false_iff, not_exists]
      exact ⟨⟨by omega, trivial⟩, fun s1 h => Outcome.noConfusion h⟩
    | some info =>
      rw [handleDoubleSign_jail k ctx s pk ih ts p info hage hinfo]
      simp only [Outcome.isPanic, Bool.false_eq_true, false_iff, not_and, true_iff]
      exact ⟨fun _ h => Option.noConfusion h, ⟨_, rfl⟩⟩

/-! ## Lemmas for the later claims -/

/-- A run of reports at heights that do not pass the height test of the
downtime check makes no call and keeps `StartHeight` and `JailedUntil`. -/
theorem handleValidatorSignatures_below_minHeight (k : Keeper) (pk : PubKey) (rs : List Report)
    (s : State) (info0 : ValidatorSigningInfo) (hW : k.params.SignedBlocksWindow ≠ 0)
    (hinfo : s.signingInfo pk.Address = some info0)
    (hh : ∀ r ∈ rs,
      r.ctx.BlockHeight ≤ wrap64 (info0.StartHeight + k.params.SignedBlocksWindow)) :
    ∃ s1 info1, handleValidatorSignatures k pk s rs = Outcome.returned s1 ∧
      s1.calls = s.calls ∧
      s1.signingInfo pk.Address = some info1 ∧
      info1.StartHeight = info0.StartHeight ∧
      info1.JailedUntil = info0.JailedUntil := by
  induction rs generalizing s info0 with
  | nil => exact ⟨s, info0, rfl, rfl, hinfo, rfl, rfl⟩
  | cons r rs ih =>
    obtain ⟨s1, info1, hret, hinfo1, _, hstart, _, _, _, hno⟩ :=
      handleValidatorSignature_outcome k r.ctx s pk r.power r.signed hW
    rw [loadSigningInfo_of_some r.ctx s pk.Address info0 hinfo] at hstart hno
    have hr := hh r (List.mem_cons_self r rs)
    have hskip := hno (fun hc => absurd hc.1 (by rw [hstart]; omega))
    obtain ⟨s2, info2, hrun, hcalls, hinfo2, hstart2, hjail2⟩ := ih s1 info1 hinfo1
      (fun r1 hr1 => by rw [hstart]; exact hh r1 (List.mem_cons_of_mem r hr1))
    refine ⟨s2, info2, ?_, ?_, hinfo2, ?_, ?_⟩
    · simp only [handleValidatorSignatures, hret]
      exact hrun
    · rw [hcalls, hskip.1]
    · rw [hstart2, hstart]
    · rw [hjail2, hskip.2]

theorem loadSigningInfo_of_none (ctx : Ctx) (s : State) (a : List Nat)
    (h : s.signingInfo a = none) :
    loadSigningInfo ctx s a = NewValidatorSigningInfo ctx.BlockHeight 0 (timeUnix 0 0) 0 := by
  unfold loadSigningInfo getValidatorSigningInfo
  rw [h]

theorem scenarioReports_heights (first : Bool) (time power : Int → Int) :
    ∀ r ∈ (scenarioReports first time power).tail, r.ctx.BlockHeight ≤ 110 := by
  intro r hr
  simp only [scenarioReports, List.tail_cons, List.map_cons, List.map_nil, List.mem_cons,
    List.mem_singleton, List.not_mem_nil, or_false] at hr
  rcases hr with h | h | h | h | h | h | h | h | h | h <;> rw [h] <;>
    simp [scenarioReport]

/-- The first report of a validator at height 100 and any later reports at
heights up to 110, with window 10: no call is made and the record has start
height 100. -/
theorem scenario_prefix (k : Keeper) (pk : PubKey) (s : State) (r0 : Report) (rs : List Report)
    (hW : k.params.SignedBlocksWindow = 10) (hinfo : s.signingInfo pk.Address = none)
    (h0 : r0.ctx.BlockHeight = 100) (hrs : ∀ r ∈ rs, r.ctx.BlockHeight ≤ 110) :
    ∃ s1 info1, handleValidatorSignatures k pk s (r0 :: rs) = Outcome.returned s1 ∧
      s1.calls = s.calls ∧ s1.signingInfo pk.Address = some info1 ∧ info1.StartHeight = 100 := by
  have hW0 : k.params.SignedBlocksWindow ≠ 0 := by rw [hW]; decide
  obtain ⟨s1, info1, hret, hinfo1, _, hstart, _, _, _, hno⟩ :=
    handleValidatorSignature_outcome k r0.ctx s pk r0.power r0.signed hW0
  rw [loadSigningInfo_of_none r0.ctx s pk.Address hinfo] at hstart hno
  have hstart1 : info1.StartHeight = 100 := by rw [hstart]; exact h0
  have hmin : wrap64 (info1.StartHeight + k.params.SignedBlocksWindow) = 110 := by
    rw [hstart1, hW]
    decide
  have hskip := hno (fun hc => absurd hc.1 (by rw [hmin, h0]; decide))
  obtain ⟨s2, info2, hrun, hcalls, hinfo2, hstart2, _⟩ :=
    handleValidatorSignatures_below_minHeight k pk rs s1 info1 hW0 hinfo1
      (fun r hr => by rw [hmin]; exact hrs r hr)
  refine ⟨s2, info2, ?_, ?_, hinfo2, ?_⟩
  · simp only [handleValidatorSignatures, hret]
    exact hrun
  · rw [hcalls, hskip.1]
  · rw [hstart2, hstart1]

/-- C11. End-to-end scenario: window 10, threshold 5, a fresh validator first
reported at height 100 (with either flag), then at heights 101 to 110 absent
except for 103, 105 and 107; whatever the block times and powers. No prefix of
these reports panics or makes a call, and the record has start height 100. The
report at height 111, absent, with the validator found and not revoked,
persists a counter of 3 and makes exactly one `Slash` call, with
`SlashFractionDowntime`, followed by one `Revoke` call, and it persists
`JailedUntil = block time of 111 + DowntimeUnbondDuration`. -/
theorem end_to_end_scenario (k : Keeper) (pk : PubKey) (s : State) (first : Bool)
    (time power : Int → Int) (v : Validator)
    (hW : k.params.SignedBlocksWindow = 10) (hMin : k.params.MinSignedPerWindow = 5)
    (hinfo : s.signingInfo pk.Address = none)
    (hbits : ∀ i, getValidatorSigningBitArray s pk.Address i = false)
    (hv : k.validatorSet.ValidatorByPubKey (scenarioCtx time) s.calls pk = some v)
    (hrev : v.Revoked = false) :
    (∀ n, (handleValidatorSignatures k pk s
          ((scenarioReports first time power).take n)).isPanic = false ∧
        (handleValidatorSignatures k pk s
          ((scenarioReports first time power).take n)).state.calls = s.calls) ∧
    ∃ s1 info1 s2 info2,
      handleValidatorSignatures k pk s (scenarioReports first time power) =
        Outcome.returned s1 ∧
      s1.signingInfo pk.Address = some info1 ∧ info1.StartHeight = 100 ∧
      handleValidatorSignature k (scenarioCtx time) s1 pk (power 111) false =
        Outcome.returned s2 ∧
      s2.signingInfo pk.Address = some info2 ∧ info2.SignedBlocksCounter = 3 ∧
      s2.calls = s.calls ++
        [VSCall.Slash pk 111 (power 111) k.params.SlashFractionDowntime, VSCall.Revoke pk] ∧
      info2.JailedUntil = time 111 + k.params.DowntimeUnbondDuration := by
  have hW0 : k.params.SignedBlocksWindow ≠ 0 := by rw [hW]; decide
  have htail := scenarioReports_heights first time power
  constructor
  · intro n
    cases n with
    | zero => exact ⟨rfl, rfl⟩
    | succ n =>
      obtain ⟨s1, info1, hrun, hcalls, _, _⟩ := scenario_prefix k pk s
        ⟨⟨100, time 100⟩, power 100, first⟩ ((scenarioReports first time power).tail.take n)
        hW hinfo rfl (fun r hr => htail r (List.mem_of_mem_take hr))
      have htake : (scenarioReports first time power).take (n + 1) =
          ⟨⟨100, time 100⟩, power 100, first⟩ ::
            (scenarioReports first time power).tail.take n := rfl
      rw [htake, hrun]
      exact ⟨rfl, hcalls⟩
  · obtain ⟨s1, info1, hrun, hcalls, hinfo1, hstart1⟩ := scenario_prefix k pk s
      ⟨⟨100, time 100⟩, power 100, first⟩ (scenarioReports first time power).tail
      hW hinfo rfl htail
    have hfull : ⟨⟨100, time 100⟩, power 100, first⟩ ::
        (scenarioReports first time power).tail = scenarioReports first time power := rfl
    rw [hfull] at hrun
    obtain ⟨s1a, hrun1, hinv, _⟩ := WindowInv.run k pk s 10 hW (by decide) (by decide) hinfo
      hbits (scenarioReports first time power)
      (by rw [show (scenarioReports first time power).length = 11 from rfl]; decide)
    rw [hrun] at hrun1
    injection hrun1 with hs
    subst hs
    obtain ⟨s2, hstep, hinv2⟩ := WindowInv.step k (scenarioCtx time) s1 pk (power 111) false 10
      _ hW (by decide) (by decide)
      (by
        rw [List.length_map, show (scenarioReports first time power).length = 11 from rfl]
        decide) hinv
    obtain ⟨s2a, info2, hret, hinfo2, _, hstart, _, _, hyes, _⟩ :=
      handleValidatorSignature_outcome k (scenarioCtx time) s1 pk (power 111) false hW0
    rw [hstep] at hret
    injection hret with hs
    subst hs
    have hcnt : info2.SignedBlocksCounter = 3 := by
      have h1 := hinv2.recent
      simp only [storedCounter, hinfo2] at h1
      rw [h1]
      rfl
    rw [loadSigningInfo_of_some _ s1 pk.Address info1 hinfo1, hstart1] at hstart
    rw [hcalls] at hyes
    have hpun := hyes ⟨by
      rw [hstart, hW, show (scenarioCtx time).BlockHeight = 111 from rfl]
      decide, by rw [hcnt, hMin]; decide, v, hv, hrev⟩
    exact ⟨s1, info1, s2, info2, hrun, hinfo1, hstart1, hstep, hinfo2, hcnt, hpun.1, hpun.2⟩

/-- C11 on a sample: the scenario from the empty state, with the first report
signed, block time 1000 per height and power 10. -/
theorem end_to_end_scenario_witness :
    (∀ n, (handleValidatorSignatures scenarioKeeper samplePubKey emptyState
          ((scenarioReports true (fun h => h * 1000) (fun _ => 10)).take n)).isPanic = false ∧
        (handleValidatorSignatures scenarioKeeper samplePubKey emptyState
          ((scenarioReports true (fun h => h * 1000) (fun _ => 10)).take n)).state.calls =
            emptyState.calls) ∧
    ∃ s1 info1 s2 info2,
      handleValidatorSignatures scenarioKeeper samplePubKey emptyState
        (scenarioReports true (fun h => h * 1000) (fun _ => 10)) = Outcome.returned s1 ∧
      s1.signingInfo samplePubKey.Address = some info1 ∧ info1.StartHeight = 100 ∧
      handleValidatorSignature scenarioKeeper (scenarioCtx (fun h => h * 1000)) s1 samplePubKey
        ((fun _ => 10) (111 : Int)) false = Outcome.returned s2 ∧
      s2.signingInfo samplePubKey.Address = some info2 ∧ info2.SignedBlocksCounter = 3 ∧
      s2.calls = emptyState.calls ++
        [VSCall.Slash samplePubKey 111 ((fun _ => 10) (111 : Int))
          scenarioKeeper.params.SlashFractionDowntime, VSCall.Revoke samplePubKey] ∧
      info2.JailedUntil =
        (fun h => h * 1000) (111 : Int) + scenarioKeeper.params.DowntimeUnbondDuration :=
  end_to_end_scenario scenarioKeeper samplePubKey emptyState true (fun h => h * 1000)
    (fun _ => 10) ⟨false⟩ rfl rfl rfl (fun _ => rfl) rfl rfl

/-- What one `handleValidatorSignature` call does to the bit-array store: only
the slot of the call can change, and it is written only when the bit read
differs from the flag. -/
theorem handleValidatorSignature_bitArray (k : Keeper) (ctx : Ctx) (s : State) (pk : PubKey)
    (p : Int) (b : Bool) (hW : k.params.SignedBlocksWindow ≠ 0) :
    ∃ s1, handleValidatorSignature k ctx s pk p b = Outcome.returned s1 ∧
      (∀ a1 i1, ¬ (a1 = pk.Address ∧
          i1 = rem64 (loadSigningInfo ctx s pk.Address).IndexOffset
            k.params.SignedBlocksWindow) →
        s1.bitArray a1 i1 = s.bitArray a1 i1) ∧
      (getValidatorSigningBitArray s pk.Address
          (rem64 (loadSigningInfo ctx s pk.Address).IndexOffset
            k.params.SignedBlocksWindow) = b → s1.bitArray = s.bitArray) ∧
      (getValidatorSigningBitArray s pk.Address
          (rem64 (loadSigningInfo ctx s pk.Address).IndexOffset
            k.params.SignedBlocksWindow) ≠ b →
        s1.bitArray pk.Address
          (rem64 (loadSigningInfo ctx s pk.Address).IndexOffset
            k.params.SignedBlocksWindow) = some b) := by
  refine ⟨_, handleValidatorSignature_returned k ctx s pk p b hW, ?_, ?_, ?_⟩
  · intro a1 i1 hne
    simp only [setValidatorSigningInfo]
    rw [checkDowntime_bitArray]
    unfold updateWindow
    simp only
    split_ifs
    · rfl
    · simp only [setValidatorSigningBitArray]
      by_cases ha : a1 = pk.Address
      · subst ha
        rw [Function.update_same, Function.update_noteq (fun h => hne ⟨rfl, h⟩)]
      · rw [Function.update_noteq ha]
    · simp only [setValidatorSigningBitArray]
      by_cases ha : a1 = pk.Address
      · subst ha
        rw [Function.update_same, Function.update_noteq (fun h => hne ⟨rfl, h⟩)]
      · rw [Function.update_noteq ha]
    · rfl
  · intro hprev
    simp only [setValidatorSigningInfo]
    rw [checkDowntime_bitArray]
    unfold updateWindow
    simp only
    rw [if_pos hprev]
  · intro hprev
    simp only [setValidatorSigningInfo]
    rw [checkDowntime_bitArray]
    unfold updateWindow
    simp only
    rw [if_neg hprev]
    cases b
    · have hp : getValidatorSigningBitArray s pk.Address
          (rem64 (loadSigningInfo ctx s pk.Address).IndexOffset
            k.params.SignedBlocksWindow) = true := by
        simpa using hprev
      rw [if_pos ⟨hp, rfl⟩]
      simp only [setValidatorSigningBitArray, Function.update_same]
    · have hp : getValidatorSigningBitArray s pk.Address
          (rem64 (loadSigningInfo ctx s pk.Address).IndexOffset
            k.params.SignedBlocksWindow) = false := by
        simpa using hprev
      rw [if_neg (by simp), if_pos ⟨hp, rfl⟩]
      simp only [setValidatorSigningBitArray, Function.update_same]

/-- From a fresh validator: the state after the reports `rs` (at most `2^63 - 1`
of them) and the state after one more report `r`, with the slot of that call
and what it does to the counter. -/
theorem fresh_run_step (k : Keeper) (pk : PubKey) (s : State) (rs : List Report) (r : Report)
    (W : Nat) (hW : k.params.SignedBlocksWindow = (W : Int)) (hpos : 0 < W)
    (hmax : (W : Int) ≤ maxInt64) (hinfo : s.signingInfo pk.Address = none)
    (hbits : ∀ i, getValidatorSigningBitArray s pk.Address i = false)
    (hlen : (rs.length : Int) ≤ maxInt64) :
    ∃ s1 s2, handleValidatorSignatures k pk s rs = Outcome.returned s1 ∧
      handleValidatorSignature k r.ctx s1 pk r.power r.signed = Outcome.returned s2 ∧
      WindowInv s1 pk.Address W (rs.map Report.signed) ∧
      WindowInv s2 pk.Address W (rs.map Report.signed ++ [r.signed]) ∧
      storedIndexOffset s1 pk.Address = (rs.length : Int) ∧
      rem64 (storedIndexOffset s1 pk.Address) k.params.SignedBlocksWindow =
        ((rs.length % W : Nat) : Int) ∧
      (∀ a1 i1, getValidatorSigningBitArray s2 a1 i1 =
        if a1 = pk.Address ∧ i1 = ((rs.length % W : Nat) : Int) then r.signed
        else getValidatorSigningBitArray s1 a1 i1) ∧
      storedCounter s2 pk.Address +
          (if getValidatorSigningBitArray s1 pk.Address ((rs.length % W : Nat) : Int) = true
            then 1 else 0) =
        storedCounter s1 pk.Address + (if r.signed = true then 1 else 0) := by
  obtain ⟨s1, hrun, hinv, _⟩ := WindowInv.run k pk s W hW hpos hmax hinfo hbits rs
    (by omega)
  have hl : (((rs.map Report.signed).length : Nat) : Int) ≤ maxInt64 := by
    rw [List.length_map]
    exact hlen
  obtain ⟨s2, hstep, hinv2⟩ :=
    WindowInv.step k r.ctx s1 pk r.power r.signed W _ hW hpos hmax hl hinv
  have hW0 : k.params.SignedBlocksWindow ≠ 0 := by rw [hW]; omega
  obtain ⟨s2a, hstep2, hbit, _, _⟩ :=
    handleValidatorSignature_window k r.ctx s1 pk r.power r.signed hW0
  rw [hstep] at hstep2
  injection hstep2 with hs
  subst hs
  have hoff : storedIndexOffset s1 pk.Address = (rs.length : Int) := by
    rw [hinv.offset, List.length_map, wrap64_natCast hlen]
  have hidx : rem64 (storedIndexOffset s1 pk.Address) k.params.SignedBlocksWindow =
      ((rs.length % W : Nat) : Int) := by
    rw [hoff, hW, rem64_natCast]
  rw [hidx] at hbit
  refine ⟨s1, s2, hrun, hstep, hinv, hinv2, hoff, hidx, hbit, ?_⟩
  have hupd := countP_range_update
    (fun i => getValidatorSigningBitArray s1 pk.Address (i : Int))
    (fun i => getValidatorSigningBitArray s2 pk.Address (i : Int)) r.signed (rs.length % W) W
    (Nat.mod_lt _ hpos)
    (by
      intro i
      simp only
      rw [hbit]
      by_cases hi : i = rs.length % W
      · rw [if_pos ⟨rfl, by rw [hi]⟩, if_pos hi]
      · rw [if_neg (fun hh => hi (Int.ofNat_inj.mp hh.2)), if_neg hi])
  simp only at hupd
  have h1 := hinv.window
  have h2 := hinv2.window
  unfold signedBitsInWindow at h1 h2
  rw [Int.toNat_ofNat] at h1 h2
  rw [h1, h2]
  split_ifs at hupd ⊢ <;> omega

theorem offset_at_overflow (b0 : Bool) (n : Nat) (hn : (n : Int) = maxInt64 + 1) :
    ((handleValidatorSignatures sampleKeeper samplePubKey emptyState
        (List.replicate n (sampleReport b0))).state.signingInfo [7]).map
      ValidatorSigningInfo.IndexOffset = some minInt64 := by
  obtain ⟨s1, hrun, hinv, hex⟩ := WindowInv.run sampleKeeper samplePubKey emptyState 3 rfl
    (by decide) (by decide) rfl (fun _ => rfl) (List.replicate n (sampleReport b0))
    (by rw [List.length_replicate]; omega)
  have hne : List.replicate n (sampleReport b0) ≠ [] := by
    intro h
    have h1 := congrArg List.length h
    rw [List.length_replicate, List.length_nil] at h1
    rw [h1] at hn
    exact absurd hn (by decide)
  obtain ⟨info, hinfo⟩ := hex hne
  have hoff := hinv.offset
  rw [List.length_map, List.length_replicate, hn] at hoff
  simp only [storedIndexOffset, hinfo] at hoff
  rw [hrun]
  simp only [Outcome.state]
  rw [show samplePubKey.Address = [7] from rfl] at hinfo
  rw [hinfo, Option.map_some', hoff]
  rfl

/-- C12, amended. Window wraparound: for a window size `0 < W` and a fresh
validator, call number `k = n + 1` (after `n ≤ 2^63 - 1` earlier calls) takes
slot `n mod W`, which lies in `[0, W)`; it changes no other entry of the bit
array, leaves the flag in that slot and changes the counter by the new flag
minus the prior value of the slot; for `k < 2^63` it leaves `IndexOffset = k`.
After exactly `W` calls `IndexOffset mod W` is 0, so call `W + 1` takes slot 0. -/
theorem window_wraparound_below_overflow (k : Keeper) (pk : PubKey) (s : State)
    (rs : List Report) (r : Report) (hpos : 0 < k.params.SignedBlocksWindow)
    (hmax : k.params.SignedBlocksWindow ≤ maxInt64)
    (hinfo : s.signingInfo pk.Address = none)
    (hbits : ∀ i, getValidatorSigningBitArray s pk.Address i = false)
    (hlen : (rs.length : Int) ≤ maxInt64) :
    ∃ s1 s2, handleValidatorSignatures k pk s rs = Outcome.returned s1 ∧
      handleValidatorSignature k r.ctx s1 pk r.power r.signed = Outcome.returned s2 ∧
      rem64 (storedIndexOffset s1 pk.Address) k.params.SignedBlocksWindow =
        (rs.length : Int) % k.params.SignedBlocksWindow ∧
      0 ≤ (rs.length : Int) % k.params.SignedBlocksWindow ∧
      (rs.length : Int) % k.params.SignedBlocksWindow < k.params.SignedBlocksWindow ∧
      (∀ a1 i1, ¬ (a1 = pk.Address ∧ i1 = (rs.length : Int) % k.params.SignedBlocksWindow) →
        s2.bitArray a1 i1 = s1.bitArray a1 i1) ∧
      getValidatorSigningBitArray s2 pk.Address
        ((rs.length : Int) % k.params.SignedBlocksWindow) = r.signed ∧
      storedCounter s2 pk.Address =
        storedCounter s1 pk.Address + (if r.signed = true then 1 else 0) -
          (if getValidatorSigningBitArray s1 pk.Address
            ((rs.length : Int) % k.params.SignedBlocksWindow) = true then 1 else 0) ∧
      ((rs.length : Int) < maxInt64 →
        ∃ info, s2.signingInfo pk.Address = some info ∧
          info.IndexOffset = (rs.length : Int) + 1) ∧
      ((rs.length : Int) = k.params.SignedBlocksWindow →
        rem64 (storedIndexOffset s1 pk.Address) k.params.SignedBlocksWindow = 0 ∧
        getValidatorSigningBitArray s2 pk.Address 0 = r.signed ∧
        storedCounter s2 pk.Address =
          storedCounter s1 pk.Address + (if r.signed = true then 1 else 0) -
            (if getValidatorSigningBitArray s1 pk.Address 0 = true then 1 else 0)) := by
  obtain ⟨W, hW⟩ := Int.eq_ofNat_of_zero_le (le_of_lt hpos)
  have hposN : 0 < W := by rw [hW] at hpos; omega
  have hmaxN : (W : Int) ≤ maxInt64 := by rw [hW] at hmax; exact hmax
  obtain ⟨s1, s2, hrun, hstep, hinv, hinv2, hoff, hidx, hbit, hcnt⟩ :=
    fresh_run_step k pk s rs r W hW hposN hmaxN hinfo hbits hlen
  have hW0 : k.params.SignedBlocksWindow ≠ 0 := by rw [hW]; omega
  obtain ⟨s2a, hstep2, hframe, _, _⟩ :=
    handleValidatorSignature_bitArray k r.ctx s1 pk r.power r.signed hW0
  rw [hstep] at hstep2
  injection hstep2 with hs
  subst hs
  rw [loadSigningInfo_IndexOffset, hidx] at hframe
  have hmod : (rs.length : Int) % k.params.SignedBlocksWindow = ((rs.length % W : Nat) : Int) := by
    rw [hW, Int.ofNat_emod]
  have hlt : rs.length % W < W := Nat.mod_lt _ hposN
  have hslot : getValidatorSigningBitArray s2 pk.Address ((rs.length % W : Nat) : Int) =
      r.signed := by
    rw [hbit, if_pos ⟨rfl, rfl⟩]
  have hcnt2 : storedCounter s2 pk.Address =
      storedCounter s1 pk.Address + (if r.signed = true then 1 else 0) -
        (if getValidatorSigningBitArray s1 pk.Address ((rs.length % W : Nat) : Int) = true
          then 1 else 0) := by
    omega
  rw [hmod]
  refine ⟨s1, s2, hrun, hstep, hidx, by omega, by rw [hW]; omega, hframe, hslot, hcnt2, ?_, ?_⟩
  · intro hlt1
    obtain ⟨info, hi⟩ := handleValidatorSignature_stored k r.ctx s1 s2 pk r.power r.signed hstep
    refine ⟨info, hi, ?_⟩
    have h1 := hinv2.offset
    simp only [storedIndexOffset, hi] at h1
    rw [h1, List.length_append, List.length_map, List.length_singleton]
    push_cast
    apply wrap64_eq_self
    · unfold minInt64; omega
    · omega
  · intro hn
    have hn1 : rs.length = W := by
      rw [hW] at hn
      exact Int.ofNat_inj.mp hn
    have h0 : rs.length % W = 0 := by rw [hn1, Nat.mod_self]
    rw [h0] at hidx hslot hcnt2
    exact ⟨hidx, hslot, hcnt2⟩

/-- C12, amended, on a sample: the sixth call after five reports, window 3. -/
theorem window_wraparound_below_overflow_witness :
    ∃ s1 s2, handleValidatorSignatures sampleKeeper samplePubKey emptyState sampleReports =
        Outcome.returned s1 ∧
      handleValidatorSignature sampleKeeper (sampleReport true).ctx s1 samplePubKey
        (sampleReport true).power (sampleReport true).signed = Outcome.returned s2 ∧
      rem64 (storedIndexOffset s1 samplePubKey.Address) sampleKeeper.params.SignedBlocksWindow =
        (sampleReports.length : Int) % sampleKeeper.params.SignedBlocksWindow ∧
      0 ≤ (sampleReports.length : Int) % sampleKeeper.params.SignedBlocksWindow ∧
      (sampleReports.length : Int) % sampleKeeper.params.SignedBlocksWindow <
        sampleKeeper.params.SignedBlocksWindow ∧
      (∀ a1 i1, ¬ (a1 = samplePubKey.Address ∧
          i1 = (sampleReports.length : Int) % sampleKeeper.params.SignedBlocksWindow) →
        s2.bitArray a1 i1 = s1.bitArray a1 i1) ∧
      getValidatorSigningBitArray s2 samplePubKey.Address
        ((sampleReports.length : Int) % sampleKeeper.params.SignedBlocksWindow) =
          (sampleReport true).signed ∧
      storedCounter s2 samplePubKey.Address =
        storedCounter s1 samplePubKey.Address +
            (if (sampleReport true).signed = true then 1 else 0) -
          (if getValidatorSigningBitArray s1 samplePubKey.Address
            ((sampleReports.length : Int) % sampleKeeper.params.SignedBlocksWindow) = true
            then 1 else 0) ∧
      ((sampleReports.length : Int) < maxInt64 →
        ∃ info, s2.signingInfo samplePubKey.Address = some info ∧
          info.IndexOffset = (sampleReports.length : Int) + 1) ∧
      ((sampleReports.length : Int) = sampleKeeper.params.SignedBlocksWindow →
        rem64 (storedIndexOffset s1 samplePubKey.Address)
          sampleKeeper.params.SignedBlocksWindow = 0 ∧
        getValidatorSigningBitArray s2 samplePubKey.Address 0 = (sampleReport true).signed ∧
        storedCounter s2 samplePubKey.Address =
          storedCounter s1 samplePubKey.Address +
              (if (sampleReport true).signed = true then 1 else 0) -
            (if getValidatorSigningBitArray s1 samplePubKey.Address 0 = true then 1 else 0)) :=
  window_wraparound_below_overflow sampleKeeper samplePubKey emptyState sampleReports
    (sampleReport true) (by decide) (by decide) rfl (fun _ => rfl) (by decide)

/-- C12 as stated fails at `k = 2^63`: after `2^63` reports to the sample
keeper the stored `IndexOffset` is not `2^63` but the smallest `int64`. -/
theorem index_offset_wraps_at_overflow :
    ((handleValidatorSignatures sampleKeeper samplePubKey emptyState
        (List.replicate 9223372036854775808 (sampleReport true))).state.signingInfo [7]).map
      ValidatorSigningInfo.IndexOffset = some (-9223372036854775808) :=
  offset_at_overflow true 9223372036854775808 (by decide)

/-! ## The start height and orphan bits along sequences of calls -/

theorem handleCall_StartHeight (k : Keeper) (s : State) (c : Call) (a : List Nat) (h : Int)
    (hs : (s.signingInfo a).map ValidatorSigningInfo.StartHeight = some h) :
    ((handleCall k s c).state.signingInfo a).map ValidatorSigningInfo.StartHeight = some h := by
  obtain ⟨info, hinfo, hstart⟩ : ∃ info, s.signingInfo a = some info ∧ info.StartHeight = h := by
    cases hi : s.signingInfo a with
    | none => rw [hi] at hs; exact Option.noConfusion hs
    | some info =>
      rw [hi] at hs
      exact ⟨info, rfl, by simpa using hs⟩
  cases c with
  | signature ctx pk p b =>
    simp only [handleCall]
    by_cases hW : k.params.SignedBlocksWindow = 0
    · have hp : handleValidatorSignature k ctx s pk p b =
          Outcome.panicked Panic.integerDivideByZero s := by
        unfold handleValidatorSignature
        simp only
        rw [if_pos hW]
      rw [hp]
      exact hs
    · obtain ⟨s1, info1, hret, hinfo1, hframe, hstart1, _⟩ :=
        handleValidatorSignature_outcome k ctx s pk p b hW
      rw [hret]
      simp only [Outcome.state]
      by_cases ha : a = pk.Address
      · subst ha
        rw [loadSigningInfo_of_some ctx s pk.Address info hinfo] at hstart1
        rw [hinfo1, Option.map_some', hstart1, hstart]
      · rw [hframe a ha]
        exact hs
  | doubleSign ctx pk ih ts p =>
    simp only [handleCall]
    by_cases hage : timeSub ctx.BlockTime ts > k.params.MaxEvidenceAge
    · rw [handleDoubleSign_stale k ctx s pk ih ts p hage]
      exact hs
    · cases hi : s.signingInfo pk.Address with
      | none =>
        rw [handleDoubleSign_missing k ctx s pk ih ts p hage hi]
        exact hs
      | some info2 =>
        rw [handleDoubleSign_jail k ctx s pk ih ts p info2 hage hi]
        simp only [Outcome.state, setValidatorSigningInfo, Revoke, Slash]
        by_cases ha : a = pk.Address
        · subst ha
          rw [hinfo] at hi
          injection hi with hi
          subst hi
          rw [Function.update_same, Option.map_some', hstart]
        · rw [Function.update_noteq ha]
          exact hs

theorem handleCalls_StartHeight (k : Keeper) (cs : List Call) (s : State) (a : List Nat)
    (h : Int) (hs : (s.signingInfo a).map ValidatorSigningInfo.StartHeight = some h) :
    ((handleCalls k s cs).state.signingInfo a).map ValidatorSigningInfo.StartHeight =
      some h := by
  induction cs generalizing s with
  | nil => exact hs
  | cons c cs ih =>
    have h1 := handleCall_StartHeight k s c a h hs
    simp only [handleCalls]
    cases hc : handleCall k s c with
    | returned s1 =>
      rw [hc] at h1
      exact ih s1 h1
    | panicked p s1 =>
      rw [hc] at h1
      exact h1

theorem NoOrphanBits.handleCall (k : Keeper) (s : State) (c : Call) (hs : NoOrphanBits s) :
    NoOrphanBits (handleCall k s c).state := by
  cases c with
  | signature ctx pk p b =>
    simp only [Slashing.handleCall]
    by_cases hW : k.params.SignedBlocksWindow = 0
    · have hp : handleValidatorSignature k ctx s pk p b =
          Outcome.panicked Panic.integerDivideByZero s := by
        unfold handleValidatorSignature
        simp only
        rw [if_pos hW]
      rw [hp]
      exact hs
    · obtain ⟨s1, info1, hret, hinfo1, hframe, _⟩ :=
        handleValidatorSignature_outcome k ctx s pk p b hW
      obtain ⟨s1a, hret1, hbframe, _, _⟩ := handleValidatorSignature_bitArray k ctx s pk p b hW
      rw [hret] at hret1
      injection hret1 with hs1
      subst hs1
      rw [hret]
      intro a i hnone
      simp only [Outcome.state] at hnone ⊢
      have ha : a ≠ pk.Address := by
        intro ha
        rw [ha, hinfo1] at hnone
        exact Option.noConfusion hnone
      rw [hframe a ha] at hnone
      rw [hbframe a i (fun hh => ha hh.1)]
      exact hs a i hnone
  | doubleSign ctx pk ih ts p =>
    simp only [Slashing.handleCall]
    by_cases hage : timeSub ctx.BlockTime ts > k.params.MaxEvidenceAge
    · rw [handleDoubleSign_stale k ctx s pk ih ts p hage]
      exact hs
    · cases hi : s.signingInfo pk.Address with
      | none =>
        rw [handleDoubleSign_missing k ctx s pk ih ts p hage hi]
        exact hs
      | some info2 =>
        rw [handleDoubleSign_jail k ctx s pk ih ts p info2 hage hi]
        intro a i hnone
        simp only [Outcome.state, setValidatorSigningInfo, Revoke, Slash] at hnone ⊢
        have ha : a ≠ pk.Address := by
          intro ha
          rw [ha, Function.update_same] at hnone
          exact Option.noConfusion hnone
        rw [Function.update_noteq ha] at hnone
        exact hs a i hnone

/-- In every state the handlers reach from the empty stores, an address without
a record has no bit stored. -/
theorem NoOrphanBits.handleCalls (k : Keeper) (cs : List Call) (s : State)
    (hs : NoOrphanBits s) : NoOrphanBits (handleCalls k s cs).state := by
  induction cs generalizing s with
  | nil => exact hs
  | cons c cs ih =>
    have h1 := NoOrphanBits.handleCall k s c hs
    simp only [Slashing.handleCalls]
    cases hc : Slashing.handleCall k s c with
    | returned s1 =>
      rw [hc] at h1
      exact ih s1 h1
    | panicked p s1 =>
      rw [hc] at h1
      exact h1

/-- The first report of a validator that has no record and whose slot 0 reads
false. -/
theorem first_report (k : Keeper) (ctx : Ctx) (s : State) (pk : PubKey) (p : Int) (b : Bool)
    (hW : k.params.SignedBlocksWindow ≠ 0) (hinfo : s.signingInfo pk.Address = none)
    (hbit : getValidatorSigningBitArray s pk.Address 0 = false) :
    ∃ s1 info1, handleValidatorSignature k ctx s pk p b = Outcome.returned s1 ∧
      s1.signingInfo pk.Address = some info1 ∧
      info1.StartHeight = ctx.BlockHeight ∧ info1.IndexOffset = 1 ∧
      info1.SignedBlocksCounter = (if b = true then 1 else 0) := by
  obtain ⟨s1, info1, hret, hinfo1, _, hstart, hoff, hcnt, _, _⟩ :=
    handleValidatorSignature_outcome k ctx s pk p b hW
  rw [loadSigningInfo_of_none ctx s pk.Address hinfo] at hstart hoff hcnt
  simp only [NewValidatorSigningInfo] at hstart hoff hcnt
  have h0 : rem64 0 k.params.SignedBlocksWindow = 0 := by
    unfold rem64
    exact Int.zero_tmod _
  rw [h0, hbit] at hcnt
  refine ⟨s1, info1, hret, hinfo1, hstart, ?_, ?_⟩
  · rw [hoff]
    decide
  · rw [hcnt]
    cases b
    · rfl
    · rw [if_neg (by decide), if_pos rfl, if_pos rfl]
      decide

/-- C13. `StartHeight` is set once: in any state the handlers reach from the
empty stores, the first `handleValidatorSignature` call (window not zero) for a
validator that has no record returns and persists a record whose `StartHeight`
is the block height of that call, with `IndexOffset` 1 and
`SignedBlocksCounter` 1 if signed and 0 if not; and after any later sequence of
`handleValidatorSignature` and `handleDoubleSign` calls, for any validators,
whether it ends in a panic or not, the stored `StartHeight` is that same
height. -/
theorem start_height_set_once (k : Keeper) (calls0 : List Call) (ctx : Ctx) (pk : PubKey)
    (p : Int) (b : Bool) (calls : List Call) (hW : k.params.SignedBlocksWindow ≠ 0)
    (hinfo : (handleCalls k emptyState calls0).state.signingInfo pk.Address = none) :
    ∃ s1 info1,
      handleValidatorSignature k ctx (handleCalls k emptyState calls0).state pk p b =
        Outcome.returned s1 ∧
      s1.signingInfo pk.Address = some info1 ∧
      info1.StartHeight = ctx.BlockHeight ∧ info1.IndexOffset = 1 ∧
      info1.SignedBlocksCounter = (if b = true then 1 else 0) ∧
      ((handleCalls k s1 calls).state.signingInfo pk.Address).map
        ValidatorSigningInfo.StartHeight = some ctx.BlockHeight := by
  have horphan : NoOrphanBits (handleCalls k emptyState calls0).state :=
    NoOrphanBits.handleCalls k calls0 emptyState (fun _ _ _ => rfl)
  have hbit : getValidatorSigningBitArray (handleCalls k emptyState calls0).state
      pk.Address 0 = false := by
    unfold getValidatorSigningBitArray
    rw [horphan pk.Address 0 hinfo]
    rfl
  obtain ⟨s1, info1, hret, hinfo1, hstart, hoff, hcnt⟩ :=
    first_report k ctx _ pk p b hW hinfo hbit
  refine ⟨s1, info1, hret, hinfo1, hstart, hoff, hcnt, ?_⟩
  apply handleCalls_StartHeight
  rw [hinfo1, Option.map_some', hstart]

/-- C13 on a sample: after a report for another validator, the first report of
the sample validator at height 9, followed by reports for both and a double
sign. -/
theorem start_height_set_once_witness :
    ∃ s1 info1,
      handleValidatorSignature sampleKeeper ⟨9, 40⟩
          (handleCalls sampleKeeper emptyState
            [Call.signature ⟨5, 0⟩ otherPubKey 1 true]).state samplePubKey 1 true =
        Outcome.returned s1 ∧
      s1.signingInfo samplePubKey.Address = some info1 ∧
      info1.StartHeight = (Ctx.mk 9 40).BlockHeight ∧ info1.IndexOffset = 1 ∧
      info1.SignedBlocksCounter = (if true = true then 1 else 0) ∧
      ((handleCalls sampleKeeper s1 sampleCalls).state.signingInfo samplePubKey.Address).map
        ValidatorSigningInfo.StartHeight = some (Ctx.mk 9 40).BlockHeight :=
  start_height_set_once sampleKeeper [Call.signature ⟨5, 0⟩ otherPubKey 1 true] ⟨9, 40⟩
    samplePubKey 1 true sampleCalls (by decide) (by decide)

/-! ## One call depends on, and changes, one validator only -/

theorem updateWindow_congr (s t : State) (a : List Nat) (i : Int) (b : Bool)
    (info : ValidatorSigningInfo) (h : s.bitArray a = t.bitArray a) :
    (updateWindow s a i b info).2 = (updateWindow t a i b info).2 ∧
    (updateWindow s a i b info).1.bitArray a = (updateWindow t a i b info).1.bitArray a := by
  have hg : getValidatorSigningBitArray s a i = getValidatorSigningBitArray t a i := by
    unfold getValidatorSigningBitArray
    rw [h]
  unfold updateWindow
  simp only [hg]
  split_ifs
  · exact ⟨rfl, h⟩
  · refine ⟨rfl, ?_⟩
    simp only [setValidatorSigningBitArray, Function.update_same, h]
  · refine ⟨rfl, ?_⟩
    simp only [setValidatorSigningBitArray, Function.update_same, h]
  · exact ⟨rfl, h⟩

theorem updateWindow_bitArray_other (s : State) (a a1 : List Nat) (i : Int) (b : Bool)
    (info : ValidatorSigningInfo) (h : a1 ≠ a) :
    (updateWindow s a i b info).1.bitArray a1 = s.bitArray a1 := by
  unfold updateWindow
  simp only
  split_ifs
  · rfl
  · simp only [setValidatorSigningBitArray, Function.update_noteq h]
  · simp only [setValidatorSigningBitArray, Function.update_noteq h]
  · rfl

theorem checkDowntime_congr (k : Keeper) (ctx : Ctx) (s t : State) (pk : PubKey) (p : Int)
    (info : ValidatorSigningInfo)
    (h : k.validatorSet.ValidatorByPubKey ctx s.calls pk =
      k.validatorSet.ValidatorByPubKey ctx t.calls pk) :
    (checkDowntime k ctx s pk p info).2 = (checkDowntime k ctx t pk p info).2 ∧
    ∃ cs, (checkDowntime k ctx s pk p info).1.calls = s.calls ++ cs ∧
      (checkDowntime k ctx t pk p info).1.calls = t.calls ++ cs ∧
      ∀ c ∈ cs, VSCall.pubkey c = pk := by
  by_cases hc : ctx.BlockHeight > wrap64 (info.StartHeight + k.params.SignedBlocksWindow) ∧
      info.SignedBlocksCounter < k.params.MinSignedPerWindow ∧
      ∃ v, k.validatorSet.ValidatorByPubKey ctx s.calls pk = some v ∧ v.Revoked = false
  · obtain ⟨h1, h2, v, h3, h4⟩ := hc
    rw [checkDowntime_punish k ctx s pk p info v h1 h2 h3 h4,
      checkDowntime_punish k ctx t pk p info v h1 h2 (h ▸ h3) h4]
    refine ⟨rfl, [VSCall.Slash pk ctx.BlockHeight p k.params.SlashFractionDowntime,
      VSCall.Revoke pk], ?_, ?_, ?_⟩
    · simp [Revoke, Slash]
    · simp [Revoke, Slash]
    · intro c hc
      simp only [List.mem_cons, List.mem_singleton, List.not_mem_nil, or_false] at hc
      rcases hc with hc | hc <;> rw [hc] <;> rfl
  · have hct := hc
    rw [h] at hct
    rw [checkDowntime_skip k ctx s pk p info hc, checkDowntime_skip k ctx t pk p info hct]
    exact ⟨rfl, [], by simp, by simp, by simp⟩

/-- Two states that agree on a validator's record, on its bits and on the
answer of the validator set for it: a `handleValidatorSignature` call for that
validator leaves them in agreement and makes the same calls, all of them for
that validator. -/
theorem handleValidatorSignature_local (k : Keeper) (ctx : Ctx) (s t : State) (pk : PubKey)
    (p : Int) (b : Bool) (hW : k.params.SignedBlocksWindow ≠ 0)
    (hinfo : s.signingInfo pk.Address = t.signingInfo pk.Address)
    (hbits : s.bitArray pk.Address = t.bitArray pk.Address)
    (hv : k.validatorSet.ValidatorByPubKey ctx s.calls pk =
      k.validatorSet.ValidatorByPubKey ctx t.calls pk) :
    ∃ s1 t1 cs, handleValidatorSignature k ctx s pk p b = Outcome.returned s1 ∧
      handleValidatorSignature k ctx t pk p b = Outcome.returned t1 ∧
      s1.signingInfo pk.Address = t1.signingInfo pk.Address ∧
      s1.bitArray pk.Address = t1.bitArray pk.Address ∧
      s1.calls = s.calls ++ cs ∧ t1.calls = t.calls ++ cs ∧
      ∀ c ∈ cs, VSCall.pubkey c = pk := by
  have hload : loadSigningInfo ctx s pk.Address = loadSigningInfo ctx t pk.Address := by
    unfold loadSigningInfo getValidatorSigningInfo
    rw [hinfo]
  have hu := updateWindow_congr s t pk.Address
    (rem64 (loadSigningInfo ctx t pk.Address).IndexOffset k.params.SignedBlocksWindow) b
    (loadSigningInfo ctx t pk.Address) hbits
  have hv1 : k.validatorSet.ValidatorByPubKey ctx
      (updateWindow s pk.Address
        (rem64 (loadSigningInfo ctx t pk.Address).IndexOffset k.params.SignedBlocksWindow) b
        (loadSigningInfo ctx t pk.Address)).1.calls pk =
      k.validatorSet.ValidatorByPubKey ctx
      (updateWindow t pk.Address
        (rem64 (loadSigningInfo ctx t pk.Address).IndexOffset k.params.SignedBlocksWindow) b
        (loadSigningInfo ctx t pk.Address)).1.calls pk := by
    rw [updateWindow_calls, updateWindow_calls]
    exact hv
  obtain ⟨hc2, cs, hcs, hct, hpk⟩ := checkDowntime_congr k ctx _ _ pk p
    (updateWindow t pk.Address
      (rem64 (loadSigningInfo ctx t pk.Address).IndexOffset k.params.SignedBlocksWindow) b
      (loadSigningInfo ctx t pk.Address)).2 hv1
  rw [updateWindow_calls] at hcs hct
  refine ⟨_, _, cs, handleValidatorSignature_returned k ctx s pk p b hW,
    handleValidatorSignature_returned k ctx t pk p b hW, ?_, ?_, ?_, ?_, hpk⟩
  · rw [hload, hu.1]
    simp only [setValidatorSigningInfo, Function.update_same]
    rw [hc2]
  · rw [hload, hu.1]
    simp only [setValidatorSigningInfo]
    rw [checkDowntime_bitArray, checkDowntime_bitArray]
    exact hu.2
  · rw [hload, hu.1]
    simp only [setValidatorSigningInfo]
    exact hcs
  · simp only [setValidatorSigningInfo]
    exact hct

/-- A `handleValidatorSignature` call leaves the record and the bits of every
other address as they were. -/
theorem handleValidatorSignature_other (k : Keeper) (ctx : Ctx) (s s1 : State) (pk : PubKey)
    (p : Int) (b : Bool) (h : handleValidatorSignature k ctx s pk p b = Outcome.returned s1)
    (a : List Nat) (ha : a ≠ pk.Address) :
    s1.signingInfo a = s.signingInfo a ∧ s1.bitArray a = s.bitArray a := by
  unfold handleValidatorSignature at h
  simp only at h
  split_ifs at h
  injection h with h
  subst h
  constructor
  · simp only [setValidatorSigningInfo]
    rw [Function.update_noteq ha, checkDowntime_signingInfo, updateWindow_signingInfo]
  · simp only [setValidatorSigningInfo]
    rw [checkDowntime_bitArray, updateWindow_bitArray_other _ _ _ _ _ _ ha]

theorem handleCalls_pair (k : Keeper) (ctx : Ctx) (s s1 s2 : State) (pk1 pk2 : PubKey)
    (p1 p2 : Int) (b1 b2 : Bool)
    (h1 : handleValidatorSignature k ctx s pk1 p1 b1 = Outcome.returned s1)
    (h2 : handleValidatorSignature k ctx s1 pk2 p2 b2 = Outcome.returned s2) :
    handleCalls k s [Call.signature ctx pk1 p1 b1, Call.signature ctx pk2 p2 b2] =
      Outcome.returned s2 := by
  simp only [handleCalls, handleCall, h1, h2]

theorem activeUntilRevoked_independent (pk other : PubKey) (h : pk ≠ other) (ctx : Ctx)
    (log cs : List VSCall) (hcs : ∀ c ∈ cs, VSCall.pubkey c = other) :
    activeUntilRevoked.ValidatorByPubKey ctx (log ++ cs) pk =
      activeUntilRevoked.ValidatorByPubKey ctx log pk := by
  have hno : VSCall.Revoke pk ∉ cs := by
    intro hmem
    exact h (hcs _ hmem)
  simp [activeUntilRevoked, hno]

/-- C14. Cross-validator commutativity: for two validators with distinct
addresses in the same block, and a validator set whose answer for either of
them does not change with calls made for the other, reporting the first and then
the second leaves the same signing-info store, the same bit-array store and,
up to order, the same `Slash` and `Revoke` calls as reporting the second and
then the first; either both orders return or both panic. -/
theorem cross_validator_commutativity (k : Keeper) (ctx : Ctx) (s : State) (pkA pkB : PubKey)
    (pA pB : Int) (bA bB : Bool) (hne : pkA.Address ≠ pkB.Address)
    (hA : ∀ log cs, (∀ c ∈ cs, VSCall.pubkey c = pkB) →
      k.validatorSet.ValidatorByPubKey ctx (log ++ cs) pkA =
        k.validatorSet.ValidatorByPubKey ctx log pkA)
    (hB : ∀ log cs, (∀ c ∈ cs, VSCall.pubkey c = pkA) →
      k.validatorSet.ValidatorByPubKey ctx (log ++ cs) pkB =
        k.validatorSet.ValidatorByPubKey ctx log pkB) :
    (handleCalls k s [Call.signature ctx pkA pA bA,
        Call.signature ctx pkB pB bB]).state.signingInfo =
      (handleCalls k s [Call.signature ctx pkB pB bB,
        Call.signature ctx pkA pA bA]).state.signingInfo ∧
    (handleCalls k s [Call.signature ctx pkA pA bA,
        Call.signature ctx pkB pB bB]).state.bitArray =
      (handleCalls k s [Call.signature ctx pkB pB bB,
        Call.signature ctx pkA pA bA]).state.bitArray ∧
    List.Perm
      (handleCalls k s [Call.signature ctx pkA pA bA,
        Call.signature ctx pkB pB bB]).state.calls
      (handleCalls k s [Call.signature ctx pkB pB bB,
        Call.signature ctx pkA pA bA]).state.calls ∧
    (handleCalls k s [Call.signature ctx pkA pA bA,
        Call.signature ctx pkB pB bB]).isPanic =
      (handleCalls k s [Call.signature ctx pkB pB bB,
        Call.signature ctx pkA pA bA]).isPanic := by
  by_cases hW : k.params.SignedBlocksWindow = 0
  · have hp : ∀ (pk : PubKey) (p : Int) (b : Bool), handleValidatorSignature k ctx s pk p b =
        Outcome.panicked Panic.integerDivideByZero s := by
      intro pk p b
      unfold handleValidatorSignature
      simp only
      rw [if_pos hW]
    have hq : ∀ (pk1 pk2 : PubKey) (p1 p2 : Int) (b1 b2 : Bool),
        handleCalls k s [Call.signature ctx pk1 p1 b1, Call.signature ctx pk2 p2 b2] =
          Outcome.panicked Panic.integerDivideByZero s := by
      intro pk1 pk2 p1 p2 b1 b2
      simp only [handleCalls, handleCall, hp]
    rw [hq, hq]
    exact ⟨rfl, rfl, List.Perm.refl _, rfl⟩
  · obtain ⟨sA, sA1, csA, hsA, hsA1, _, _, hcA, _, hpkA⟩ :=
      handleValidatorSignature_local k ctx s s pkA pA bA hW rfl rfl rfl
    obtain ⟨sB, sB1, csB, hsB, hsB1, _, _, hcB, _, hpkB⟩ :=
      handleValidatorSignature_local k ctx s s pkB pB bB hW rfl rfl rfl
    have hoA := handleValidatorSignature_other k ctx s sA pkA pA bA hsA
    have hoB := handleValidatorSignature_other k ctx s sB pkB pB bB hsB
    -- the second validator after the first, against the second validator alone
    obtain ⟨sAB, t1, cs1, hsAB, ht1, hiAB, hbAB, hcAB, hct1, _⟩ :=
      handleValidatorSignature_local k ctx sA s pkB pB bB hW
        (hoA pkB.Address (Ne.symm hne)).1 (hoA pkB.Address (Ne.symm hne)).2
        (by rw [hcA]; exact hB s.calls csA hpkA)
    rw [hsB] at ht1
    injection ht1 with ht1
    subst ht1
    -- the first validator after the second, against the first validator alone
    obtain ⟨sBA, t2, cs2, hsBA, ht2, hiBA, hbBA, hcBA, hct2, _⟩ :=
      handleValidatorSignature_local k ctx sB s pkA pA bA hW
        (hoB pkA.Address hne).1 (hoB pkA.Address hne).2
        (by rw [hcB]; exact hA s.calls csB hpkB)
    rw [hsA] at ht2
    injection ht2 with ht2
    subst ht2
    have hoAB := handleValidatorSignature_other k ctx sA sAB pkB pB bB hsAB
    have hoBA := handleValidatorSignature_other k ctx sB sBA pkA pA bA hsBA
    rw [handleCalls_pair k ctx s sA sAB pkA pkB pA pB bA bB hsA hsAB,
      handleCalls_pair k ctx s sB sBA pkB pkA pB pA bB bA hsB hsBA]
    simp only [Outcome.state, Outcome.isPanic]
    refine ⟨?_, ?_, ?_, trivial⟩
    · funext a
      by_cases ha : a = pkA.Address
      · subst ha
        rw [(hoAB pkA.Address hne).1, hiBA]
      · by_cases hb : a = pkB.Address
        · subst hb
          rw [(hoBA pkB.Address (Ne.symm hne)).1, hiAB]
        · rw [(hoAB a hb).1, (hoA a ha).1, (hoBA a ha).1, (hoB a hb).1]
    · funext a
      by_cases ha : a = pkA.Address
      · subst ha
        rw [(hoAB pkA.Address hne).2, hbBA]
      · by_cases hb : a = pkB.Address
        · subst hb
          rw [(hoBA pkB.Address (Ne.symm hne)).2, hbAB]
        · rw [(hoAB a hb).2, (hoA a ha).2, (hoBA a ha).2, (hoB a hb).2]
    · rw [hcAB, hcBA, hct1, hct2, List.append_assoc, List.append_assoc]
      exact List.Perm.append_left _ List.perm_append_comm

/-- C14 on a sample: in the block of height 14 the sample validator, tracked
since height 10 with an empty window, is absent and punished, and another
validator is reported for the first time. -/
theorem cross_validator_commutativity_witness :
    (handleCalls sampleKeeper trackedState [Call.signature ⟨14, 1000⟩ samplePubKey 10 false,
        Call.signature ⟨14, 1000⟩ otherPubKey 20 true]).state.signingInfo =
      (handleCalls sampleKeeper trackedState [Call.signature ⟨14, 1000⟩ otherPubKey 20 true,
        Call.signature ⟨14, 1000⟩ samplePubKey 10 false]).state.signingInfo ∧
    (handleCalls sampleKeeper trackedState [Call.signature ⟨14, 1000⟩ samplePubKey 10 false,
        Call.signature ⟨14, 1000⟩ otherPubKey 20 true]).state.bitArray =
      (handleCalls sampleKeeper trackedState [Call.signature ⟨14, 1000⟩ otherPubKey 20 true,
        Call.signature ⟨14, 1000⟩ samplePubKey 10 false]).state.bitArray ∧
    List.Perm
      (handleCalls sampleKeeper trackedState [Call.signature ⟨14, 1000⟩ samplePubKey 10 false,
        Call.signature ⟨14, 1000⟩ otherPubKey 20 true]).state.calls
      (handleCalls sampleKeeper trackedState [Call.signature ⟨14, 1000⟩ otherPubKey 20 true,
        Call.signature ⟨14, 1000⟩ samplePubKey 10 false]).state.calls ∧
    (handleCalls sampleKeeper trackedState [Call.signature ⟨14, 1000⟩ samplePubKey 10 false,
        Call.signature ⟨14, 1000⟩ otherPubKey 20 true]).isPanic =
      (handleCalls sampleKeeper trackedState [Call.signature ⟨14, 1000⟩ otherPubKey 20 true,
        Call.signature ⟨14, 1000⟩ samplePubKey 10 false]).isPanic :=
  cross_validator_commutativity sampleKeeper ⟨14, 1000⟩ trackedState samplePubKey otherPubKey
    10 20 false true (by decide)
    (activeUntilRevoked_independent samplePubKey otherPubKey (by decide) ⟨14, 1000⟩)
    (activeUntilRevoked_independent otherPubKey samplePubKey (by decide) ⟨14, 1000⟩)

/-! ## The address index -/

theorem copyAddress_of_length (size : Nat) (addrSlice : List Nat)
    (h : addrSlice.length = size) : copyAddress size addrSlice = addrSlice := by
  unfold copyAddress
  rw [← h, List.take_left']
  rfl

/-- On a keeper whose map has been made, a slice of the right length is stored:
the map then sends it to the key and is unchanged elsewhere. -/
theorem addValidatorAddress_insert (size : Nat) (k : Keeper) (m : List Nat → Option PubKey)
    (addrSlice : List Nat) (key : PubKey) (hm : k.addressToPubkey = some m)
    (h : addrSlice.length = size) :
    ∃ m1, addValidatorAddress size k addrSlice key = IndexOutcome.returned (some m1) ∧
      m1 addrSlice = some key ∧ ∀ a, a ≠ addrSlice → m1 a = m a := by
  refine ⟨Function.update m addrSlice (some key), ?_, Function.update_same _ _ _,
    fun a ha => Function.update_noteq ha _ _⟩
  unfold addValidatorAddress
  rw [if_neg (by simp [h]), hm, copyAddress_of_length size addrSlice h]

/-- On a keeper that `NewKeeper` returns, a slice of the right length panics. -/
theorem addValidatorAddress_newKeeper (size : Nat) (vs : ValidatorSet) (params : Params)
    (addrSlice : List Nat) (key : PubKey) (h : addrSlice.length = size) :
    addValidatorAddress size (NewKeeper vs params) addrSlice key = IndexOutcome.panicked := by
  unfold addValidatorAddress
  rw [if_neg (by simp [h])]
  rfl

/-- C15. Malformed address-index input is a no-op: for every keeper, also one
whose map is nil, and every byte slice whose length is not `tmhash.Size`,
`addValidatorAddress` returns and leaves the map as it was. -/
theorem malformed_address_ignored (size : Nat) (k : Keeper) (addrSlice : List Nat)
    (key : PubKey) (h : addrSlice.length ≠ size) :
    addValidatorAddress size k addrSlice key = IndexOutcome.returned k.addressToPubkey := by
  unfold addValidatorAddress
  rw [if_pos h]

/-- C15 on a sample: three bytes where 20 are expected, on a keeper with a nil
map. -/
theorem malformed_address_ignored_witness :
    addValidatorAddress 20 sampleKeeper [1, 2, 3] samplePubKey =
      IndexOutcome.returned sampleKeeper.addressToPubkey :=
  malformed_address_ignored 20 sampleKeeper [1, 2, 3] samplePubKey (by decide)

/-- C16 fails on the code: on the keeper that `NewKeeper` returns, whose map is
nil, `addValidatorAddress` with 20 bytes (each 7) where 20 are expected panics
instead of storing the key. -/
theorem address_insert_panics_on_new_keeper :
    addValidatorAddress 20 (NewKeeper activeUntilRevoked sampleParams) (List.replicate 20 7)
      samplePubKey = IndexOutcome.panicked := by
  rfl

/-- C17, amended. Before the window has wrapped (`IndexOffset` before the call
below the window size) the slot of the call has never been written and reads
false, so there the case `previous == signed` is exactly the case of an absent
report; with `signed = true` the case only happens in calls where `IndexOffset`
before the call is at least `SignedBlocksWindow`. In that case neither the bit
array nor the counter changes. This is for a fresh validator with window
`0 < W`, after at most `2^63 - 1` earlier calls. -/
theorem previous_equals_signed_before_wrap (k : Keeper) (pk : PubKey) (s : State)
    (rs : List Report) (r : Report) (hpos : 0 < k.params.SignedBlocksWindow)
    (hmax : k.params.SignedBlocksWindow ≤ maxInt64)
    (hinfo : s.signingInfo pk.Address = none)
    (hbits : ∀ i, getValidatorSigningBitArray s pk.Address i = false)
    (hlen : (rs.length : Int) ≤ maxInt64) :
    ∃ s1 s2, handleValidatorSignatures k pk s rs = Outcome.returned s1 ∧
      handleValidatorSignature k r.ctx s1 pk r.power r.signed = Outcome.returned s2 ∧
      storedIndexOffset s1 pk.Address = (rs.length : Int) ∧
      (storedIndexOffset s1 pk.Address < k.params.SignedBlocksWindow →
        getValidatorSigningBitArray s1 pk.Address
          (rem64 (storedIndexOffset s1 pk.Address) k.params.SignedBlocksWindow) = false) ∧
      (storedIndexOffset s1 pk.Address < k.params.SignedBlocksWindow →
        (getValidatorSigningBitArray s1 pk.Address
            (rem64 (storedIndexOffset s1 pk.Address) k.params.SignedBlocksWindow) = r.signed ↔
          r.signed = false)) ∧
      (getValidatorSigningBitArray s1 pk.Address
          (rem64 (storedIndexOffset s1 pk.Address) k.params.SignedBlocksWindow) = r.signed →
        r.signed = true → k.params.SignedBlocksWindow ≤ storedIndexOffset s1 pk.Address) ∧
      (getValidatorSigningBitArray s1 pk.Address
          (rem64 (storedIndexOffset s1 pk.Address) k.params.SignedBlocksWindow) = r.signed →
        s2.bitArray = s1.bitArray ∧ storedCounter s2 pk.Address = storedCounter s1 pk.Address) := by
  obtain ⟨W, hW⟩ := Int.eq_ofNat_of_zero_le (le_of_lt hpos)
  have hposN : 0 < W := by rw [hW] at hpos; omega
  have hmaxN : (W : Int) ≤ maxInt64 := by rw [hW] at hmax; exact hmax
  obtain ⟨s1, s2, hrun, hstep, hinv, _, hoff, hidx, _, hcnt⟩ :=
    fresh_run_step k pk s rs r W hW hposN hmaxN hinfo hbits hlen
  have hW0 : k.params.SignedBlocksWindow ≠ 0 := by rw [hW]; omega
  obtain ⟨s2a, hstep2, _, hsame, _⟩ :=
    handleValidatorSignature_bitArray k r.ctx s1 pk r.power r.signed hW0
  rw [hstep] at hstep2
  injection hstep2 with hs
  subst hs
  rw [loadSigningInfo_IndexOffset] at hsame
  have hfalse : storedIndexOffset s1 pk.Address < k.params.SignedBlocksWindow →
      getValidatorSigningBitArray s1 pk.Address
        (rem64 (storedIndexOffset s1 pk.Address) k.params.SignedBlocksWindow) = false := by
    intro hlt
    rw [hoff, hW] at hlt
    have hlt1 : rs.length < W := by omega
    rw [hidx, Nat.mod_eq_of_lt hlt1]
    apply hinv.unset
    right
    rw [List.length_map]
    omega
  refine ⟨s1, s2, hrun, hstep, hoff, hfalse, ?_, ?_, ?_⟩
  · intro hlt
    rw [hfalse hlt]
    exact ⟨fun h => h.symm, fun h => h.symm⟩
  · intro heq htrue
    by_contra hlt
    rw [hfalse (by omega), htrue] at heq
    exact Bool.noConfusion heq
  · intro heq
    refine ⟨hsame heq, ?_⟩
    rw [hidx] at heq
    rw [heq] at hcnt
    omega

/-- C17, amended, on a sample: the sixth call after five reports, window 3. -/
theorem previous_equals_signed_before_wrap_witness :
    ∃ s1 s2, handleValidatorSignatures sampleKeeper samplePubKey emptyState sampleReportsB =
        Outcome.returned s1 ∧
      handleValidatorSignature sampleKeeper (sampleReport true).ctx s1 samplePubKey
        (sampleReport true).power (sampleReport true).signed = Outcome.returned s2 ∧
      storedIndexOffset s1 samplePubKey.Address = (sampleReportsB.length : Int) ∧
      (storedIndexOffset s1 samplePubKey.Address < sampleKeeper.params.SignedBlocksWindow →
        getValidatorSigningBitArray s1 samplePubKey.Address
          (rem64 (storedIndexOffset s1 samplePubKey.Address)
            sampleKeeper.params.SignedBlocksWindow) = false) ∧
      (storedIndexOffset s1 samplePubKey.Address < sampleKeeper.params.SignedBlocksWindow →
        (getValidatorSigningBitArray s1 samplePubKey.Address
            (rem64 (storedIndexOffset s1 samplePubKey.Address)
              sampleKeeper.params.SignedBlocksWindow) = (sampleReport true).signed ↔
          (sampleReport true).signed = false)) ∧
      (getValidatorSigningBitArray s1 samplePubKey.Address
          (rem64 (storedIndexOffset s1 samplePubKey.Address)
            sampleKeeper.params.SignedBlocksWindow) = (sampleReport true).signed →
        (sampleReport true).signed = true →
        sampleKeeper.params.SignedBlocksWindow ≤ storedIndexOffset s1 samplePubKey.Address) ∧
      (getValidatorSigningBitArray s1 samplePubKey.Address
          (rem64 (storedIndexOffset s1 samplePubKey.Address)
            sampleKeeper.params.SignedBlocksWindow) = (sampleReport true).signed →
        s2.bitArray = s1.bitArray ∧
        storedCounter s2 samplePubKey.Address = storedCounter s1 samplePubKey.Address) :=
  previous_equals_signed_before_wrap sampleKeeper samplePubKey emptyState sampleReportsB
    (sampleReport true) (by decide) (by decide) rfl (fun _ => rfl) (by decide)

/-- C17 as stated fails: the very first report of a validator, when it is an
absence, finds `previous == signed` (the slot reads false by default) with
`IndexOffset` 0, below the window size 3; no bit is written and the counter
stays 0. -/
theorem previous_equals_signed_on_first_absence :
    storedIndexOffset emptyState [7] = 0 ∧
    storedIndexOffset emptyState [7] < sampleKeeper.params.SignedBlocksWindow ∧
    getValidatorSigningBitArray emptyState [7]
      (rem64 (storedIndexOffset emptyState [7]) sampleKeeper.params.SignedBlocksWindow) = false ∧
    (handleValidatorSignature sampleKeeper ⟨10, 0⟩ emptyState samplePubKey 1 false).state.bitArray
      [7] 0 = none ∧
    storedCounter
      (handleValidatorSignature sampleKeeper ⟨10, 0⟩ emptyState samplePubKey 1 false).state
      [7] = 0 := by
  decide

/-- C18. Per-validator frame: a `handleValidatorSignature` call for address `A`
with slot `IndexOffset % SignedBlocksWindow` leaves the record and every bit of
every other address as they were, and every bit of `A` at another slot; the
entry of that slot is left as it was when the bit read there equals the flag,
and is written with the flag when it differs (window not zero; a zero window
panics with the state untouched). -/
theorem per_validator_frame (k : Keeper) (ctx : Ctx) (s : State) (pk : PubKey) (p : Int)
    (b : Bool) :
    (∀ a, a ≠ pk.Address →
      (handleValidatorSignature k ctx s pk p b).state.signingInfo a = s.signingInfo a ∧
      (handleValidatorSignature k ctx s pk p b).state.bitArray a = s.bitArray a) ∧
    (∀ i, i ≠ rem64 (loadSigningInfo ctx s pk.Address).IndexOffset
        k.params.SignedBlocksWindow →
      (handleValidatorSignature k ctx s pk p b).state.bitArray pk.Address i =
        s.bitArray pk.Address i) ∧
    (getValidatorSigningBitArray s pk.Address
        (rem64 (loadSigningInfo ctx s pk.Address).IndexOffset
          k.params.SignedBlocksWindow) = b →
      (handleValidatorSignature k ctx s pk p b).state.bitArray = s.bitArray) ∧
    (k.params.SignedBlocksWindow ≠ 0 →
      getValidatorSigningBitArray s pk.Address
        (rem64 (loadSigningInfo ctx s pk.Address).IndexOffset
          k.params.SignedBlocksWindow) ≠ b →
      (handleValidatorSignature k ctx s pk p b).state.bitArray pk.Address
        (rem64 (loadSigningInfo ctx s pk.Address).IndexOffset
          k.params.SignedBlocksWindow) = some b) ∧
    (k.params.SignedBlocksWindow = 0 →
      handleValidatorSignature k ctx s pk p b =
        Outcome.panicked Panic.integerDivideByZero s) := by
  by_cases hW : k.params.SignedBlocksWindow = 0
  · have hp : handleValidatorSignature k ctx s pk p b =
        Outcome.panicked Panic.integerDivideByZero s := by
      unfold handleValidatorSignature
      simp only
      rw [if_pos hW]
    rw [hp]
    exact ⟨fun _ _ => ⟨rfl, rfl⟩, fun _ _ => rfl, fun _ => rfl, fun h => absurd hW h,
      fun _ => rfl⟩
  · obtain ⟨s1, hret, hframe, hsame, hdiff⟩ :=
      handleValidatorSignature_bitArray k ctx s pk p b hW
    have hother := handleValidatorSignature_other k ctx s s1 pk p b hret
    rw [hret]
    simp only [Outcome.state]
    exact ⟨hother, fun i hi => hframe pk.Address i (fun hh => hi hh.2), hsame,
      fun _ => hdiff, fun h => absurd h hW⟩

/-- C20. Non-atomic fatal path: whenever `handleDoubleSign` panics, it is for
the missing signing-info record, and the state it has reached by then holds one
`Slash` call and one `Revoke` call for that validator on the validator set,
while the signing-info store and the bit array are as before. -/
theorem double_sign_panic_after_slash (k : Keeper) (ctx : Ctx) (s : State) (pk : PubKey)
    (ih ts p : Int) (h : (handleDoubleSign k ctx s pk ih ts p).isPanic = true) :
    s.signingInfo pk.Address = none ∧
    (∃ s1, handleDoubleSign k ctx s pk ih ts p =
      Outcome.panicked (Panic.signingInfoNotFound pk.Address) s1) ∧
    (handleDoubleSign k ctx s pk ih ts p).state.calls = s.calls ++
      [VSCall.Slash pk ih p k.params.SlashFractionDoubleSign, VSCall.Revoke pk] ∧
    (handleDoubleSign k ctx s pk ih ts p).state.signingInfo = s.signingInfo ∧
    (handleDoubleSign k ctx s pk ih ts p).state.bitArray = s.bitArray := by
  by_cases hage : timeSub ctx.BlockTime ts > k.params.MaxEvidenceAge
  · rw [handleDoubleSign_stale k ctx s pk ih ts p hage] at h
    exact Bool.noConfusion h
  · cases hinfo : s.signingInfo pk.Address with
    | none =>
      rw [handleDoubleSign_missing k ctx s pk ih ts p hage hinfo]
      refine ⟨rfl, ⟨_, rfl⟩, ?_, rfl, rfl⟩
      simp [Outcome.state, Revoke, Slash]
    | some info =>
      rw [handleDoubleSign_jail k ctx s pk ih ts p info hage hinfo] at h
      exact Bool.noConfusion h

/-- C20 on a sample: evidence of age exactly 48h against a validator that has
no record. -/
theorem double_sign_panic_after_slash_witness :
    emptyState.signingInfo samplePubKey.Address = none ∧
    (∃ s1, handleDoubleSign sampleKeeper lateCtx emptyState samplePubKey 77 1000 10 =
      Outcome.panicked (Panic.signingInfoNotFound samplePubKey.Address) s1) ∧
    (handleDoubleSign sampleKeeper lateCtx emptyState samplePubKey 77 1000 10).state.calls =
      emptyState.calls ++
        [VSCall.Slash samplePubKey 77 10 sampleKeeper.params.SlashFractionDoubleSign,
          VSCall.Revoke samplePubKey] ∧
    (handleDoubleSign sampleKeeper lateCtx emptyState samplePubKey 77 1000 10).state.signingInfo =
      emptyState.signingInfo ∧
    (handleDoubleSign sampleKeeper lateCtx emptyState samplePubKey 77 1000 10).state.bitArray =
      emptyState.bitArray :=
  double_sign_panic_after_slash sampleKeeper lateCtx emptyState samplePubKey 77 1000 10
    (by decide)

/-! ## Reports at consecutive heights -/

theorem handleValidatorSignatures_eq_handleCalls (k : Keeper) (pk : PubKey) (rs : List Report)
    (s : State) :
    handleValidatorSignatures k pk s rs =
      handleCalls k s (rs.map (fun r => Call.signature r.ctx pk r.power r.signed)) := by
  induction rs generalizing s with
  | nil => rfl
  | cons r rs ih =>
    simp only [handleValidatorSignatures, List.map_cons, handleCalls, handleCall]
    cases handleValidatorSignature k r.ctx s pk r.power r.signed with
    | returned s1 => exact ih s1
    | panicked p s1 => rfl

/-- The reports of a fresh validator leave the height of the first one as the
start height. -/
theorem handleValidatorSignatures_StartHeight (k : Keeper) (pk : PubKey) (s : State)
    (r0 : Report) (rs : List Report) (hW : k.params.SignedBlocksWindow ≠ 0)
    (hinfo : s.signingInfo pk.Address = none)
    (hbit : getValidatorSigningBitArray s pk.Address 0 = false) :
    ((handleValidatorSignatures k pk s (r0 :: rs)).state.signingInfo pk.Address).map
      ValidatorSigningInfo.StartHeight = some r0.ctx.BlockHeight := by
  obtain ⟨s1, info1, hret, hinfo1, hstart, _, _⟩ :=
    first_report k r0.ctx s pk r0.power r0.signed hW hinfo hbit
  simp only [handleValidatorSignatures, hret]
  rw [handleValidatorSignatures_eq_handleCalls]
  apply handleCalls_StartHeight
  rw [hinfo1, Option.map_some', hstart]

theorem exists_mod_in_window (W i : Nat) (hi : i < W) (m : Nat) :
    ∃ j, m ≤ j ∧ j < m + W ∧ j % W = i := by
  induction m with
  | zero => exact ⟨i, Nat.zero_le _, by omega, Nat.mod_eq_of_lt hi⟩
  | succ m ih =>
    obtain ⟨j, h1, h2, h3⟩ := ih
    by_cases hj : j = m
    · refine ⟨j + W, by omega, by omega, ?_⟩
      rw [Nat.add_mod_right, h3]
    · exact ⟨j, by omega, by omega, h3⟩

theorem consecutiveReports_length (signed : Bool) (H : Int) (n : Nat) :
    (consecutiveReports signed H n).length = n := by
  induction n generalizing H with
  | zero => rfl
  | succ n ih => simp only [consecutiveReports, List.length_cons, ih]

theorem consecutiveReports_height (signed : Bool) (n : Nat) (H : Int) (j : Nat)
    (r : Report) (h : (consecutiveReports signed H n)[j]? = some r) :
    r.ctx.BlockHeight = H + j := by
  induction n generalizing H j with
  | zero => simp [consecutiveReports] at h
  | succ n ih =>
    cases j with
    | zero =>
      simp only [consecutiveReports, List.getElem?_cons_zero, Option.some.injEq] at h
      rw [← h]
      simp
    | succ j =>
      simp only [consecutiveReports, List.getElem?_cons_succ] at h
      rw [ih (H + 1) j h]
      push_cast
      omega

theorem consecutive_overflow (n : Nat) (hn : (n : Int) = maxInt64 + 1) :
    ((handleValidatorSignatures sampleKeeper samplePubKey emptyState
        (consecutiveReports true minInt64 n)).state.signingInfo [7]).map
      ValidatorSigningInfo.StartHeight = some minInt64 ∧
    ((handleValidatorSignatures sampleKeeper samplePubKey emptyState
        (consecutiveReports true minInt64 n)).state.signingInfo [7]).map
      ValidatorSigningInfo.IndexOffset = some minInt64 := by
  obtain ⟨s1, hrun, hinv, _⟩ := WindowInv.run sampleKeeper samplePubKey emptyState 3 rfl
    (by decide) (by decide) rfl (fun _ => rfl) (consecutiveReports true minInt64 n)
    (by rw [consecutiveReports_length]; omega)
  have hoff := hinv.offset
  rw [List.length_map, consecutiveReports_length, hn] at hoff
  have hstart : (s1.signingInfo [7]).map ValidatorSigningInfo.StartHeight = some minInt64 := by
    cases n with
    | zero => exact absurd hn (by decide)
    | succ m =>
      have h := handleValidatorSignatures_StartHeight sampleKeeper samplePubKey emptyState
        ⟨⟨minInt64, 0⟩, 1, true⟩ (consecutiveReports true (minInt64 + 1) m) (by decide) rfl rfl
      have hcons : consecutiveReports true minInt64 (m + 1) =
          ⟨⟨minInt64, 0⟩, 1, true⟩ :: consecutiveReports true (minInt64 + 1) m := rfl
      rw [hcons] at hrun
      rw [hrun] at h
      exact h
  rw [hrun]
  simp only [Outcome.state]
  refine ⟨hstart, ?_⟩
  cases hi : s1.signingInfo [7] with
  | none =>
    rw [hi] at hstart
    exact Option.noConfusion hstart
  | some info =>
    have hi1 : s1.signingInfo samplePubKey.Address = some info := hi
    simp only [storedIndexOffset, hi1] at hoff
    rw [Option.map_some', hoff]
    rfl

/-- Reports at every height from the smallest `int64` on, window 3: after `2^63`
of them the record has that start height and an `IndexOffset` wrapped to the
smallest `int64`, and the next consecutive height, 0, passes the height test of
the code with an `IndexOffset` that is not greater than 3. -/
theorem index_offset_below_window_past_overflow :
    ((handleValidatorSignatures sampleKeeper samplePubKey emptyState
        (consecutiveReports true minInt64 9223372036854775808)).state.signingInfo [7]).map
      ValidatorSigningInfo.StartHeight = some minInt64 ∧
    ((handleValidatorSignatures sampleKeeper samplePubKey emptyState
        (consecutiveReports true minInt64 9223372036854775808)).state.signingInfo [7]).map
      ValidatorSigningInfo.IndexOffset = some minInt64 ∧
    minInt64 + 9223372036854775808 = 0 ∧
    (0 : Int) > minInt64 + sampleKeeper.params.SignedBlocksWindow ∧
    (0 : Int) > wrap64 (minInt64 + sampleKeeper.params.SignedBlocksWindow) ∧
    ¬ (sampleKeeper.params.SignedBlocksWindow < minInt64) :=
  ⟨(consecutive_overflow 9223372036854775808 (by decide)).1,
    (consecutive_overflow 9223372036854775808 (by decide)).2, by decide, by decide, by decide,
    by decide⟩

/-! ## The downtime check when the sum of line 107 does not overflow -/

/-- C3, amended. Punishment condition: when `StartHeight + SignedBlocksWindow`
is within the `int64` range, a `handleValidatorSignature` call at height `h`
(window not zero) returns, and the calls it makes on the validator set are
`Slash` then `Revoke` exactly when `h > StartHeight + SignedBlocksWindow`, the
counter it persists is below `MinSignedPerWindow`, and `ValidatorByPubKey`
finds a validator that is not revoked; otherwise it makes no call. With window
100 and threshold 50 a counter of 50 is not punished and, past the grace period
and active, a counter of 49 is. -/
theorem downtime_punishment_iff_in_range (k : Keeper) (ctx : Ctx) (s : State) (pk : PubKey)
    (p : Int) (b : Bool) (hW : k.params.SignedBlocksWindow ≠ 0)
    (hlo : minInt64 ≤
      (loadSigningInfo ctx s pk.Address).StartHeight + k.params.SignedBlocksWindow)
    (hhi : (loadSigningInfo ctx s pk.Address).StartHeight + k.params.SignedBlocksWindow ≤
      maxInt64) :
    ∃ s1 info1, handleValidatorSignature k ctx s pk p b = Outcome.returned s1 ∧
      s1.signingInfo pk.Address = some info1 ∧
      info1.StartHeight = (loadSigningInfo ctx s pk.Address).StartHeight ∧
      (s1.calls = s.calls ++
          [VSCall.Slash pk ctx.BlockHeight p k.params.SlashFractionDowntime, VSCall.Revoke pk] ↔
        (ctx.BlockHeight > info1.StartHeight + k.params.SignedBlocksWindow ∧
          info1.SignedBlocksCounter < k.params.MinSignedPerWindow ∧
          ∃ v, k.validatorSet.ValidatorByPubKey ctx s.calls pk = some v ∧ v.Revoked = false)) ∧
      (s1.calls = s.calls ↔
        ¬ (ctx.BlockHeight > info1.StartHeight + k.params.SignedBlocksWindow ∧
          info1.SignedBlocksCounter < k.params.MinSignedPerWindow ∧
          ∃ v, k.validatorSet.ValidatorByPubKey ctx s.calls pk = some v ∧ v.Revoked = false)) ∧
      (k.params.SignedBlocksWindow = 100 → k.params.MinSignedPerWindow = 50 →
        info1.SignedBlocksCounter = 50 → s1.calls = s.calls) ∧
      (k.params.SignedBlocksWindow = 100 → k.params.MinSignedPerWindow = 50 →
        info1.SignedBlocksCounter = 49 →
        ctx.BlockHeight > info1.StartHeight + 100 →
        (∃ v, k.validatorSet.ValidatorByPubKey ctx s.calls pk = some v ∧ v.Revoked = false) →
        s1.calls = s.calls ++
          [VSCall.Slash pk ctx.BlockHeight p k.params.SlashFractionDowntime,
            VSCall.Revoke pk]) := by
  obtain ⟨s1, info1, hret, hinfo, hstart, hyes, hno, h50, h49⟩ :=
    downtime_punishment_iff k ctx s pk p b hW
  have hwrap : wrap64 (info1.StartHeight + k.params.SignedBlocksWindow) =
      info1.StartHeight + k.params.SignedBlocksWindow := by
    rw [hstart]
    exact wrap64_eq_self hlo hhi
  rw [hwrap] at hyes hno
  refine ⟨s1, info1, hret, hinfo, hstart, hyes, hno, h50, ?_⟩
  intro h1 h2 h3 h4 h5
  apply h49 h1 h2 h3 _ h5
  rw [← h1, hwrap, h1]
  exact h4

/-- C3, amended, on a sample: window 100, threshold 50, a validator tracked
since height 0 with 50 bits set, reported as signed at height 201 in a slot
that is set. -/
theorem downtime_punishment_iff_in_range_witness :
    ∃ s1 info1,
      handleValidatorSignature thresholdKeeper ⟨201, 0⟩ (thresholdState 50) samplePubKey 10 true =
        Outcome.returned s1 ∧
      s1.signingInfo samplePubKey.Address = some info1 ∧
      info1.StartHeight =
        (loadSigningInfo ⟨201, 0⟩ (thresholdState 50) samplePubKey.Address).StartHeight ∧
      (s1.calls = (thresholdState 50).calls ++
          [VSCall.Slash samplePubKey (Ctx.mk 201 0).BlockHeight 10
            thresholdKeeper.params.SlashFractionDowntime, VSCall.Revoke samplePubKey] ↔
        ((Ctx.mk 201 0).BlockHeight >
            info1.StartHeight + thresholdKeeper.params.SignedBlocksWindow ∧
          info1.SignedBlocksCounter < thresholdKeeper.params.MinSignedPerWindow ∧
          ∃ v, thresholdKeeper.validatorSet.ValidatorByPubKey ⟨201, 0⟩ (thresholdState 50).calls
            samplePubKey = some v ∧ v.Revoked = false)) ∧
      (s1.calls = (thresholdState 50).calls ↔
        ¬ ((Ctx.mk 201 0).BlockHeight >
            info1.StartHeight + thresholdKeeper.params.SignedBlocksWindow ∧
          info1.SignedBlocksCounter < thresholdKeeper.params.MinSignedPerWindow ∧
          ∃ v, thresholdKeeper.validatorSet.ValidatorByPubKey ⟨201, 0⟩ (thresholdState 50).calls
            samplePubKey = some v ∧ v.Revoked = false)) ∧
      (thresholdKeeper.params.SignedBlocksWindow = 100 →
        thresholdKeeper.params.MinSignedPerWindow = 50 →
        info1.SignedBlocksCounter = 50 → s1.calls = (thresholdState 50).calls) ∧
      (thresholdKeeper.params.SignedBlocksWindow = 100 →
        thresholdKeeper.params.MinSignedPerWindow = 50 →
        info1.SignedBlocksCounter = 49 →
        (Ctx.mk 201 0).BlockHeight > info1.StartHeight + 100 →
        (∃ v, thresholdKeeper.validatorSet.ValidatorByPubKey ⟨201, 0⟩ (thresholdState 50).calls
          samplePubKey = some v ∧ v.Revoked = false) →
        s1.calls = (thresholdState 50).calls ++
          [VSCall.Slash samplePubKey (Ctx.mk 201 0).BlockHeight 10
            thresholdKeeper.params.SlashFractionDowntime, VSCall.Revoke samplePubKey]) :=
  downtime_punishment_iff_in_range thresholdKeeper ⟨201, 0⟩ (thresholdState 50) samplePubKey
    10 true (by decide) (by decide) (by decide)

/-- C3 as stated fails: window 3, threshold 2, a validator tracked since
height `2^63 - 2` with counter 0, reported absent at height `2^63 - 1`, found
and not revoked. The height is not above `StartHeight + 3`, but the sum of
line 107 wraps to `-2^63 + 1` and `Slash` and `Revoke` are called. -/
theorem punished_below_start_plus_window :
    ¬ ((9223372036854775807 : Int) >
      9223372036854775806 + sampleKeeper.params.SignedBlocksWindow) ∧
    (trackedSince 9223372036854775806).signingInfo [7] =
      some ⟨9223372036854775806, 1, 0, 0⟩ ∧
    ((handleValidatorSignature sampleKeeper ⟨9223372036854775807, 1000⟩
        (trackedSince 9223372036854775806) samplePubKey 10 false).state.signingInfo [7]).map
      ValidatorSigningInfo.StartHeight = some 9223372036854775806 ∧
    (handleValidatorSignature sampleKeeper ⟨9223372036854775807, 1000⟩
        (trackedSince 9223372036854775806) samplePubKey 10 false).state.calls =
      [VSCall.Slash samplePubKey 9223372036854775807 10
        sampleKeeper.params.SlashFractionDowntime, VSCall.Revoke samplePubKey] := by
  decide

/-- C4, amended. Grace period: for a validator whose record has
`StartHeight = H`, with `H + SignedBlocksWindow` within the `int64` range,
every sequence of `handleValidatorSignature` calls (window not zero) at heights
`h ≤ H + SignedBlocksWindow`, whatever the flags, returns, makes no `Slash` and
no `Revoke` call, and leaves `JailedUntil` (and `StartHeight`) as they were. -/
theorem grace_period_in_range (k : Keeper) (pk : PubKey) (rs : List Report) (s : State)
    (info0 : ValidatorSigningInfo) (hW : k.params.SignedBlocksWindow ≠ 0)
    (hinfo : s.signingInfo pk.Address = some info0)
    (hlo : minInt64 ≤ info0.StartHeight + k.params.SignedBlocksWindow)
    (hhi : info0.StartHeight + k.params.SignedBlocksWindow ≤ maxInt64)
    (hh : ∀ r ∈ rs, r.ctx.BlockHeight ≤ info0.StartHeight + k.params.SignedBlocksWindow) :
    ∃ s1 info1, handleValidatorSignatures k pk s rs = Outcome.returned s1 ∧
      s1.calls = s.calls ∧
      s1.signingInfo pk.Address = some info1 ∧
      info1.StartHeight = info0.StartHeight ∧
      info1.JailedUntil = info0.JailedUntil :=
  handleValidatorSignatures_below_minHeight k pk rs s info0 hW hinfo
    (fun r hr => by rw [wrap64_eq_self hlo hhi]; exact hh r hr)

/-- C4, amended, on a sample: window 3, a validator tracked since height 10 and
absent at heights 11, 12 and 13. -/
theorem grace_period_in_range_witness :
    ∃ s1 info1, handleValidatorSignatures sampleKeeper samplePubKey trackedState graceReports =
        Outcome.returned s1 ∧
      s1.calls = trackedState.calls ∧
      s1.signingInfo samplePubKey.Address = some info1 ∧
      info1.StartHeight = (ValidatorSigningInfo.mk 10 0 0 0).StartHeight ∧
      info1.JailedUntil = (ValidatorSigningInfo.mk 10 0 0 0).JailedUntil :=
  grace_period_in_range sampleKeeper samplePubKey graceReports trackedState ⟨10, 0, 0, 0⟩
    (by decide) rfl (by decide) (by decide) (by decide)

/-- C4 as stated fails: window 3, threshold 2, a validator tracked since height
`H = 2^63 - 3` with `JailedUntil` 0, absent at heights `2^63 - 2` and
`2^63 - 1`, both at most `H + 3`. The sum of line 107 wraps to `-2^63`, so the
first of the two reports already makes a `Slash` and a `Revoke` call and sets
`JailedUntil` to its block time 100 plus the unbond duration 7. -/
theorem punished_within_grace_period :
    (trackedSince 9223372036854775805).signingInfo samplePubKey.Address =
      some ⟨9223372036854775805, 1, 0, 0⟩ ∧
    (∀ r ∈ lastHeightsReports,
      r.ctx.BlockHeight ≤ 9223372036854775805 + sampleKeeper.params.SignedBlocksWindow) ∧
    (handleValidatorSignatures sampleKeeper samplePubKey (trackedSince 9223372036854775805)
        lastHeightsReports).state.calls =
      [VSCall.Slash samplePubKey 9223372036854775806 1
        sampleKeeper.params.SlashFractionDowntime, VSCall.Revoke samplePubKey] ∧
    ((handleValidatorSignatures sampleKeeper samplePubKey (trackedSince 9223372036854775805)
        lastHeightsReports).state.signingInfo samplePubKey.Address).map
      ValidatorSigningInfo.JailedUntil = some 107 := by
  decide

/-- C19, amended. Full window before any punishment: for a window size
`0 < W` and a fresh validator, reported once at every consecutive height from
`H` on, at most `2^63` times in all, with `H + W` not above the largest
`int64`: in a report `r` that passes the height test of the code (its height is
above the `int64` sum `StartHeight + W`, here the sum itself), the record has
`StartHeight = H`, `IndexOffset` before the call is the number of earlier
reports and is greater than `W`, every slot of `[0, W)` then reads the flag of
one of the last `W` reports, and the counter is the number of true flags among
them. -/
theorem full_window_before_punishment_in_range (k : Keeper) (pk : PubKey) (s : State)
    (rs : List Report) (r : Report) (H : Int) (hpos : 0 < k.params.SignedBlocksWindow)
    (hmax : k.params.SignedBlocksWindow ≤ maxInt64)
    (hinfo : s.signingInfo pk.Address = none)
    (hbits : ∀ i, getValidatorSigningBitArray s pk.Address i = false)
    (hlen : (rs.length : Int) ≤ maxInt64) (hH : minInt64 ≤ H)
    (hhi : H + k.params.SignedBlocksWindow ≤ maxInt64)
    (hheights : ∀ (j : Nat) (r0 : Report), rs[j]? = some r0 → r0.ctx.BlockHeight = H + j)
    (hr : r.ctx.BlockHeight = H + rs.length)
    (hpast : r.ctx.BlockHeight > wrap64 (H + k.params.SignedBlocksWindow)) :
    ∃ s1 s2 info1, handleValidatorSignatures k pk s rs = Outcome.returned s1 ∧
      handleValidatorSignature k r.ctx s1 pk r.power r.signed = Outcome.returned s2 ∧
      s1.signingInfo pk.Address = some info1 ∧
      info1.StartHeight = H ∧
      r.ctx.BlockHeight > wrap64 (info1.StartHeight + k.params.SignedBlocksWindow) ∧
      r.ctx.BlockHeight > info1.StartHeight + k.params.SignedBlocksWindow ∧
      info1.IndexOffset = (rs.length : Int) ∧
      k.params.SignedBlocksWindow < info1.IndexOffset ∧
      (∀ i : Nat, (i : Int) < k.params.SignedBlocksWindow →
        ∃ j : Nat, j < rs.length + 1 ∧
          ((rs.length + 1 : Nat) : Int) ≤ (j : Int) + k.params.SignedBlocksWindow ∧
          (j : Int) % k.params.SignedBlocksWindow = (i : Int) ∧
          getValidatorSigningBitArray s2 pk.Address (i : Int) =
            (rs.map Report.signed ++ [r.signed]).getD j false) ∧
      storedCounter s2 pk.Address =
        ((((rs.map Report.signed ++ [r.signed]).drop
          (rs.length + 1 - k.params.SignedBlocksWindow.toNat)).count true : Nat) : Int) := by
  have hwrap : wrap64 (H + k.params.SignedBlocksWindow) = H + k.params.SignedBlocksWindow :=
    wrap64_eq_self (by omega) hhi
  have hpast1 : r.ctx.BlockHeight > H + k.params.SignedBlocksWindow := by
    rw [← hwrap]
    exact hpast
  obtain ⟨W, hW⟩ := Int.eq_ofNat_of_zero_le (le_of_lt hpos)
  have hposN : 0 < W := by rw [hW] at hpos; omega
  have hmaxN : (W : Int) ≤ maxInt64 := by rw [hW] at hmax; exact hmax
  have hW0 : k.params.SignedBlocksWindow ≠ 0 := by rw [hW]; omega
  obtain ⟨s1, s2, hrun, hstep, hinv, hinv2, hoff, _, _, _⟩ :=
    fresh_run_step k pk s rs r W hW hposN hmaxN hinfo hbits hlen
  have hn : W < rs.length := by
    rw [hr, hW] at hpast1
    omega
  -- the first report sets the start height
  have hstart : (s1.signingInfo pk.Address).map ValidatorSigningInfo.StartHeight = some H := by
    cases rs with
    | nil => simp at hn
    | cons r0 rs1 =>
      have h := handleValidatorSignatures_StartHeight k pk s r0 rs1 hW0 hinfo (hbits 0)
      rw [hrun] at h
      have h0 := hheights 0 r0 (List.getElem?_cons_zero ..)
      rw [h0] at h
      simpa using h
  cases hi : s1.signingInfo pk.Address with
  | none =>
    rw [hi] at hstart
    exact Option.noConfusion hstart
  | some info1 =>
    rw [hi, Option.map_some'] at hstart
    have hstart1 : info1.StartHeight = H := by
      injection hstart
    simp only [storedIndexOffset, hi] at hoff
    have hlen2 : (rs.map Report.signed ++ [r.signed]).length = rs.length + 1 := by
      rw [List.length_append, List.length_map, List.length_singleton]
    refine ⟨s1, s2, info1, hrun, hstep, hi, hstart1, ?_, ?_, hoff, ?_, ?_, ?_⟩
    · rw [hstart1]
      exact hpast
    · rw [hstart1]
      exact hpast1
    · rw [hoff, hW]
      omega
    · intro i hi1
      rw [hW] at hi1
      obtain ⟨j, h1, h2, h3⟩ := exists_mod_in_window W i (by omega) (rs.length + 1 - W)
      refine ⟨j, by omega, by rw [hW]; omega, ?_, ?_⟩
      · rw [hW, ← Int.ofNat_emod, h3]
      · have hs := hinv2.slot j (by rw [hlen2]; omega) (by rw [hlen2]; omega)
        rw [h3] at hs
        exact hs
    · have hrec := hinv2.recent
      rw [hlen2] at hrec
      rw [hW, Int.toNat_ofNat]
      exact hrec

/-- C19, amended, on a sample: window 3, five signed reports at heights 10 to
14 and a report at height 15. -/
theorem full_window_before_punishment_in_range_witness :
    ∃ s1 s2 info1,
      handleValidatorSignatures sampleKeeper samplePubKey emptyState
        (consecutiveReports true 10 5) = Outcome.returned s1 ∧
      handleValidatorSignature sampleKeeper (Report.mk ⟨15, 0⟩ 1 false).ctx s1 samplePubKey
        (Report.mk ⟨15, 0⟩ 1 false).power (Report.mk ⟨15, 0⟩ 1 false).signed =
          Outcome.returned s2 ∧
      s1.signingInfo samplePubKey.Address = some info1 ∧
      info1.StartHeight = 10 ∧
      (Report.mk ⟨15, 0⟩ 1 false).ctx.BlockHeight >
        wrap64 (info1.StartHeight + sampleKeeper.params.SignedBlocksWindow) ∧
      (Report.mk ⟨15, 0⟩ 1 false).ctx.BlockHeight >
        info1.StartHeight + sampleKeeper.params.SignedBlocksWindow ∧
      info1.IndexOffset = ((consecutiveReports true 10 5).length : Int) ∧
      sampleKeeper.params.SignedBlocksWindow < info1.IndexOffset ∧
      (∀ i : Nat, (i : Int) < sampleKeeper.params.SignedBlocksWindow →
        ∃ j : Nat, j < (consecutiveReports true 10 5).length + 1 ∧
          (((consecutiveReports true 10 5).length + 1 : Nat) : Int) ≤
            (j : Int) + sampleKeeper.params.SignedBlocksWindow ∧
          (j : Int) % sampleKeeper.params.SignedBlocksWindow = (i : Int) ∧
          getValidatorSigningBitArray s2 samplePubKey.Address (i : Int) =
            ((consecutiveReports true 10 5).map Report.signed ++
              [(Report.mk ⟨15, 0⟩ 1 false).signed]).getD j false) ∧
      storedCounter s2 samplePubKey.Address =
        (((((consecutiveReports true 10 5).map Report.signed ++
            [(Report.mk ⟨15, 0⟩ 1 false).signed]).drop
          ((consecutiveReports true 10 5).length + 1 -
            sampleKeeper.params.SignedBlocksWindow.toNat)).count true : Nat) : Int) :=
  full_window_before_punishment_in_range sampleKeeper samplePubKey emptyState
    (consecutiveReports true 10 5) ⟨⟨15, 0⟩, 1, false⟩ 10 (by decide) (by decide) rfl
    (fun _ => rfl) (by decide) (by decide) (by decide) (consecutiveReports_height true 5 10)
    (by decide) (by decide)

/-- C19 as stated fails: window 3, threshold 2, a fresh validator whose first
report, an absence, comes at height `2^63 - 2`. The record gets that start
height, the sum of line 107 wraps to `-2^63 + 1`, so this very call passes the
height test with `IndexOffset` 0, which is not greater than 3, and the
validator is slashed and revoked on a window in which no slot has been
written. -/
theorem punished_on_empty_window :
    emptyState.signingInfo [7] = none ∧
    storedIndexOffset emptyState [7] = 0 ∧
    ¬ (sampleKeeper.params.SignedBlocksWindow < storedIndexOffset emptyState [7]) ∧
    (handleValidatorSignature sampleKeeper ⟨9223372036854775806, 1000⟩ emptyState samplePubKey
        10 false).state.signingInfo [7] = some ⟨9223372036854775806, 1, 1007, 0⟩ ∧
    (9223372036854775806 : Int) >
      wrap64 (9223372036854775806 + sampleKeeper.params.SignedBlocksWindow) ∧
    (∀ i : Int, (handleValidatorSignature sampleKeeper ⟨9223372036854775806, 1000⟩ emptyState
        samplePubKey 10 false).state.bitArray [7] i = none) ∧
    (handleValidatorSignature sampleKeeper ⟨9223372036854775806, 1000⟩ emptyState samplePubKey
        10 false).state.calls =
      [VSCall.Slash samplePubKey 9223372036854775806 10
        sampleKeeper.params.SlashFractionDowntime, VSCall.Revoke samplePubKey] := by
  refine ⟨rfl, by decide, by decide, by decide, by decide, fun _ => rfl, by decide⟩

end Slashing
